import Mathlib

/-!
Verification development for the repository's fake-Qdrant vector store:
the HNSW ANN index engine (src/fake-qdrant/hnsw), the log-backed Collection
Store (store.ts of the jsonl iteration), the SQLite-backed Collection Store
(src/fake-qdrant/store.ts), and the HTTP wire adapter (qdrant-http.ts).

Modelling conventions:
* JavaScript `Map` and `Set` objects are modelled as insertion-ordered
  association lists / duplicate-free lists, which captures both lookup
  semantics and iteration order.
* Floating-point similarity scores are modelled as exact rationals.  The
  engine computes `this.similarity` / `this.distance` from the configured
  metric (cosine needs a square root, which has no exact rational form), so
  every engine operation is parametrised by a `SimDist` record standing for
  that pair of score functions.  Concrete instances below use the rational
  dot product, which coincides with cosine similarity on unit-norm vectors
  (both norms are exactly 1, so the denominator is exactly 1).
* `Math.random`-driven level assignment (`randomLevel`) is replaced by an
  explicit level argument / level oracle, the standard embedding of a
  probabilistic choice.
* Point ids are strings or integers, following the data model ("id (string
  or integer)"); JavaScript number formatting is therefore `Int` decimal
  notation.
-/

/- Batteries marks rational arithmetic `@[irreducible]`, which prevents the
`decide` tactic from evaluating the executable model on concrete inputs;
restore the usual reducibility inside this file. -/
attribute [local semireducible] Rat.add Rat.mul Rat.sub Rat.inv

set_option maxRecDepth 100000

/-- Point identifier: string or number (modelled as an integer). -/
inductive PId where
  | str (s : String)
  | num (n : Int)
deriving DecidableEq, Repr

/-- A scored search result, as produced by the engine (`{id, score}`). -/
structure SR where
  id : PId
  score : ℚ
deriving DecidableEq, Repr

/-- Insert `x` into a list sorted by strictly descending preference on
`f`, placing `x` after existing entries with an equal or larger key.  This is
the stable descending order produced by the JS comparator
`(a, b) => b.score - a.score`. -/
def insDescBy (f : α → ℚ) (x : α) : List α → List α
  | [] => [x]
  | y :: ys => if f y < f x then x :: y :: ys else y :: insDescBy f x ys

/-- Stable sort by descending key, modelling `Array.prototype.sort` (which is
required to be stable) with comparator `(a, b) => b.score - a.score`. -/
def sortDescBy (f : α → ℚ) (l : List α) : List α :=
  l.foldl (fun acc x => insDescBy f x acc) []

/-- Sort search results by descending score. -/
def sortDesc (l : List SR) : List SR := sortDescBy SR.score l

/-- Membership in the insertion step. -/
theorem mem_insDescBy (f : α → ℚ) (x : α) (l : List α) (y : α) :
    y ∈ insDescBy f x l ↔ y = x ∨ y ∈ l := by
  induction l with
  | nil => simp [insDescBy]
  | cons z zs ih =>
      by_cases h : f z < f x <;> simp [insDescBy, h, ih] <;> tauto

/-- Membership is preserved by the stable descending sort. -/
theorem mem_sortDescBy (f : α → ℚ) (l : List α) (y : α) :
    y ∈ sortDescBy f l ↔ y ∈ l := by
  suffices h : ∀ acc : List α, y ∈ l.foldl (fun acc x => insDescBy f x acc) acc ↔
      y ∈ acc ∨ y ∈ l by
    simpa [sortDescBy] using h []
  induction l with
  | nil => intro acc; simp
  | cons z zs ih =>
      intro acc
      simp only [List.foldl_cons, ih, mem_insDescBy, List.mem_cons]
      tauto

/-- Association-list lookup, modelling `Map.prototype.get` (first matching
key; keys of a JS map are unique). -/
def alGet [DecidableEq κ] (l : List (κ × α)) (k : κ) : Option α :=
  match l with
  | [] => none
  | p :: ps => if p.1 = k then some p.2 else alGet ps k

/-- Pointwise update of the value stored at key `k` (no-op if absent),
modelling an in-place mutation of a `Map` entry. -/
def alAdjust [DecidableEq κ] (l : List (κ × α)) (k : κ) (f : α → α) : List (κ × α) :=
  l.map (fun p => if p.1 = k then (p.1, f p.2) else p)

/-- Association-list set, modelling `Map.prototype.set`: an existing key
keeps its position and gets the new value, a fresh key is appended at the
end (JS Map preserves insertion order). -/
def alSet [DecidableEq κ] (l : List (κ × α)) (k : κ) (v : α) : List (κ × α) :=
  if l.any (fun p => decide (p.1 = k)) then alAdjust l k (fun _ => v)
  else l ++ [(k, v)]

/-- Deletion of a key, modelling `Map.prototype.delete`. -/
def alErase [DecidableEq κ] (l : List (κ × α)) (k : κ) : List (κ × α) :=
  l.filter (fun p => decide (p.1 ≠ k))

/-- `Set.prototype.add`: append if not already present. -/
def setInsert [DecidableEq α] (s : List α) (x : α) : List α :=
  if x ∈ s then s else s ++ [x]

/-- `Set.prototype.delete`: remove the element (lists are duplicate-free). -/
def setErase [DecidableEq α] (s : List α) (x : α) : List α :=
  s.filter (fun y => decide (y ≠ x))

theorem alGet_alAdjust [DecidableEq κ] (l : List (κ × α)) (k k2 : κ) (f : α → α) :
    alGet (alAdjust l k f) k2 =
      if k2 = k then (alGet l k).map f else alGet l k2 := by
  induction l with
  | nil => simp [alAdjust, alGet]
  | cons p ps ih =>
      by_cases h0 : p.1 = k <;> by_cases h1 : p.1 = k2 <;>
        by_cases h2 : k2 = k <;> simp_all [alAdjust, alGet]

theorem alGet_eq_none_of_any_false [DecidableEq κ] (l : List (κ × α)) (k : κ)
    (h : l.any (fun p => decide (p.1 = k)) = false) : alGet l k = none := by
  induction l with
  | nil => rfl
  | cons p ps ih =>
      rw [List.any_cons, Bool.or_eq_false_iff] at h
      have hp : ¬ p.1 = k := by simpa using h.1
      simp [alGet, hp, ih h.2]

theorem alGet_isSome_of_any [DecidableEq κ] (l : List (κ × α)) (k : κ)
    (h : l.any (fun p => decide (p.1 = k)) = true) : ∃ w, alGet l k = some w := by
  induction l with
  | nil => simp at h
  | cons p ps ih =>
      by_cases hp : p.1 = k
      · exact ⟨p.2, by simp [alGet, hp]⟩
      · have h2 : ps.any (fun p => decide (p.1 = k)) = true := by
          simpa [List.any_cons, hp] using h
        rcases ih h2 with ⟨w, hw⟩
        exact ⟨w, by simp [alGet, hp, hw]⟩

theorem alGet_append_single [DecidableEq κ] (l : List (κ × α)) (k k2 : κ) (v : α) :
    alGet (l ++ [(k, v)]) k2 =
      match alGet l k2 with
      | some w => some w
      | none => if k2 = k then some v else none := by
  induction l with
  | nil =>
      by_cases h2 : k2 = k
      · simp [alGet, h2]
      · have h2b : ¬ k = k2 := fun hcon => h2 hcon.symm
        simp [alGet, h2, h2b]
  | cons p ps ih => by_cases h1 : p.1 = k2 <;> simp_all [alGet]

theorem alGet_alSet [DecidableEq κ] (l : List (κ × α)) (k k2 : κ) (v : α) :
    alGet (alSet l k v) k2 = if k2 = k then some v else alGet l k2 := by
  by_cases hany : l.any (fun p => decide (p.1 = k))
  · rw [alSet, if_pos hany, alGet_alAdjust]
    by_cases h2 : k2 = k
    · rcases alGet_isSome_of_any l k hany with ⟨w, hw⟩
      simp [h2, hw]
    · simp [h2]
  · rw [alSet, if_neg hany, alGet_append_single]
    by_cases h2 : k2 = k
    · rw [h2, alGet_eq_none_of_any_false l k (Bool.eq_false_iff.mpr hany)]
    · rcases h : alGet l k2 with _ | w <;> simp [h2, h]

theorem alGet_alErase [DecidableEq κ] (l : List (κ × α)) (k k2 : κ) :
    alGet (alErase l k) k2 = if k2 = k then none else alGet l k2 := by
  induction l with
  | nil => by_cases h2 : k2 = k <;> simp_all [alErase, alGet]
  | cons p ps ih =>
      by_cases h1 : p.1 = k <;> by_cases h3 : p.1 = k2 <;>
        by_cases h2 : k2 = k <;> simp_all [alErase, alGet]

theorem length_setInsert [DecidableEq α] (s : List α) (x : α) :
    (setInsert s x).length ≤ s.length + 1 := by
  by_cases h : x ∈ s <;> simp [setInsert, h]

theorem length_setErase [DecidableEq α] (s : List α) (x : α) :
    (setErase s x).length ≤ s.length :=
  List.length_filter_le _ _

theorem nodup_setInsert [DecidableEq α] (s : List α) (x : α) (h : s.Nodup) :
    (setInsert s x).Nodup := by
  by_cases hx : x ∈ s
  · simpa [setInsert, hx] using h
  · rw [setInsert, if_neg hx]
    refine List.Nodup.append h (List.nodup_singleton x) ?_
    intro a ha hax
    rw [List.mem_singleton] at hax
    exact hx (hax ▸ ha)

theorem nodup_setErase [DecidableEq α] (s : List α) (x : α) (h : s.Nodup) :
    (setErase s x).Nodup :=
  h.filter _

theorem mem_setInsert [DecidableEq α] (s : List α) (x y : α) :
    y ∈ setInsert s x ↔ y = x ∨ y ∈ s := by
  by_cases hx : x ∈ s
  · simp only [setInsert, if_pos hx]
    constructor
    · exact fun h => Or.inr h
    · rintro (rfl | h)
      · exact hx
      · exact h
  · simp [setInsert, hx]
    tauto

theorem mem_setErase [DecidableEq α] (s : List α) (x y : α) :
    y ∈ setErase s x ↔ y ∈ s ∧ y ≠ x := by
  simp [setErase]

/-! ## HNSW ANN index engine (hnsw/types.ts, hnsw/index.ts) -/

/-- Engine configuration (`HNSWConfig`).  The `mL` field of the source only
feeds `randomLevel`, which this model replaces by explicit level arguments,
so it is omitted; `metricCosine` stands for `metric: "cosine" | "euclidean"`. -/
structure HNSWConfig where
  M : Nat
  Mmax0 : Nat
  efConstruction : Nat
  efSearch : Nat
  metricCosine : Bool
deriving DecidableEq, Repr

/-- Defaults from `DEFAULT_HNSW_CONFIG`. -/
def DEFAULT_HNSW_CONFIG : HNSWConfig :=
  { M := 16, Mmax0 := 32, efConstruction := 200, efSearch := 50, metricCosine := true }

/-- Graph node (`HNSWNode`): neighbors maps a layer to the set of neighbor
ids at that layer (`Map<number, Set<PointId>>`). -/
structure HNSWNode where
  id : PId
  vector : List ℚ
  layer : Nat
  neighbors : List (Nat × List PId)
deriving DecidableEq, Repr

/-- The index (`class HNSWIndex`): an id-keyed node map plus entry point and
maximum level. -/
structure HNSWIndex where
  config : HNSWConfig
  nodes : List (PId × HNSWNode)
  entryPoint : Option PId
  maxLevel : Nat
deriving DecidableEq, Repr

/-- The pair of score functions `this.similarity` / `this.distance` derived
from the configured metric.  Cosine similarity over floats involves a square
root, so the engine is parametrised by this record; concrete instances below
use the rational dot product (exactly cosine similarity on unit vectors). -/
structure SimDist where
  sim : List ℚ → List ℚ → ℚ
  dist : List ℚ → List ℚ → ℚ

/-- Rational dot product. -/
def dotQ (a b : List ℚ) : ℚ := ((a.zip b).map (fun p => p.1 * p.2)).sum

/-- Cosine similarity / cosine distance specialised to unit-norm vectors,
where `dot(a,b) / (sqrt(normA) * sqrt(normB)) = dot(a,b)` exactly. -/
def cosineUnit : SimDist := ⟨dotQ, fun a b => 1 - dotQ a b⟩

def HNSWIndex.getNode (g : HNSWIndex) (pid : PId) : Option HNSWNode :=
  alGet g.nodes pid

/-- The `size` getter (`this.nodes.size`). -/
def HNSWIndex.size (g : HNSWIndex) : Nat := g.nodes.length

/-- Read the neighbor set of `pid` at `level` (none when the node or the
level key is absent). -/
def HNSWIndex.getSet (g : HNSWIndex) (pid : PId) (level : Nat) : Option (List PId) :=
  (g.getNode pid).bind (fun n => alGet n.neighbors level)

/-- The size of a neighbor set (0 when absent). -/
def HNSWIndex.setLen (g : HNSWIndex) (pid : PId) (level : Nat) : Nat :=
  ((g.getSet pid level).getD []).length

/-- In-place mutation of one neighbor set (no-op when the node or the level
key is absent; the source always guards these accesses or initialises the
key first). -/
def HNSWIndex.adjustSet (g : HNSWIndex) (pid : PId) (level : Nat)
    (f : List PId → List PId) : HNSWIndex :=
  { g with nodes := alAdjust g.nodes pid (fun n =>
      { n with neighbors := alAdjust n.neighbors level f }) }

/-- One hill-climbing descent (`greedyClosest`): repeatedly move to the
strictly closer neighbor at `level` until no improvement.  Distances strictly
decrease along the walk, so `g.size` steps of fuel are never exhausted. -/
def greedyClosestGo (m : SimDist) (g : HNSWIndex) (q : List ℚ) (level : Nat) :
    Nat → PId → ℚ → PId
  | 0, cur, _ => cur
  | fuel + 1, cur, curDist =>
    match (g.getNode cur).bind (fun n => alGet n.neighbors level) with
    | none => cur
    | some nbrs =>
      let best := nbrs.foldl (fun acc nid =>
        match g.getNode nid with
        | none => acc
        | some nb =>
          let d := m.dist q nb.vector
          if d < acc.2 then (nid, d) else acc) (cur, curDist)
      if best.1 = cur then cur
      else greedyClosestGo m g q level fuel best.1 best.2

/-- Entry to `greedyClosest(queryVector, startNode, level)`.  The source
dereferences `this.nodes.get(current)!`; the model returns the start id when
the node is missing (unreachable from the call sites). -/
def greedyClosest (m : SimDist) (g : HNSWIndex) (q : List ℚ) (start : PId)
    (level : Nat) : PId :=
  match g.getNode start with
  | none => start
  | some n => greedyClosestGo m g q level (g.size + 1) start (m.dist q n.vector)

/-- The mutable state of the `searchLayer` loop: the visited id set, the
candidate array (kept sorted by descending score at the top of every
iteration) and the result array. -/
structure SLState where
  visited : List PId
  candidates : List SR
  results : List SR
deriving DecidableEq, Repr

/-- Processing of one neighbor inside the `searchLayer` expansion loop:
skip if visited, mark visited, score, and push into candidates/results when
the result set is not full or the score beats the current worst result;
the result array is re-sorted and trimmed back to `ef` after each push. -/
def slProcessNeighbor (m : SimDist) (g : HNSWIndex) (q : List ℚ) (ef : Nat)
    (st : SLState) (nid : PId) : SLState :=
  if nid ∈ st.visited then st
  else
    let visited := st.visited ++ [nid]
    match g.getNode nid with
    | none => { st with visited := visited }
    | some nb =>
      let score := m.sim q nb.vector
      if decide (st.results.length < ef) ||
          (match st.results.getLast? with
           | some w => decide (w.score < score)
           | none => false) then
        let results0 := sortDesc (st.results ++ [⟨nid, score⟩])
        let results := if ef < results0.length then results0.dropLast else results0
        { visited := visited,
          candidates := st.candidates ++ [⟨nid, score⟩],
          results := results }
      else { st with visited := visited }

/-- Outcome of one iteration of the `searchLayer` while-loop. -/
inductive SLStep where
  | empty (results : List SR)
  | brk (popped : SR) (results : List SR)
  | next (popped : SR) (st : SLState)
deriving DecidableEq, Repr

/-- One iteration of the `searchLayer` loop: `candidates.pop()` removes the
LAST element of the descending-sorted candidate array (the lowest-scoring
candidate); the loop then sorts the results, reads the worst kept result
`results[ef-1]` when at least `ef` results exist, breaks when the popped
score is below it, and otherwise expands the popped candidate's neighbors
at `level`. -/
def slStep (m : SimDist) (g : HNSWIndex) (q : List ℚ) (level ef : Nat)
    (st : SLState) : SLStep :=
  match st.candidates.getLast? with
  | none => .empty (sortDesc st.results)
  | some current =>
    let rest := st.candidates.dropLast
    let resultsSorted := sortDesc st.results
    let worst : Option SR :=
      if ef = 0 then none
      else if ef ≤ resultsSorted.length then resultsSorted.get? (ef - 1) else none
    let brkNow : Bool :=
      match worst with
      | some w => decide (current.score < w.score)
      | none => false
    if brkNow then .brk current resultsSorted
    else
      match g.getNode current.id with
      | none => .next current ⟨st.visited, rest, resultsSorted⟩
      | some node =>
        match alGet node.neighbors level with
        | none => .next current ⟨st.visited, rest, resultsSorted⟩
        | some nbrs =>
          let st2 := nbrs.foldl (slProcessNeighbor m g q ef)
            ⟨st.visited, rest, resultsSorted⟩
          .next current ⟨st2.visited, sortDesc st2.candidates, st2.results⟩

/-- Fuel-indexed iteration of the `searchLayer` loop.  Each iteration pops a
candidate and pushes at most one candidate per never-visited id, so the fuel
below (`slFuel`) always suffices; the fuel-0 branch returns the current
results exactly as the loop exit would. -/
def slGo (m : SimDist) (g : HNSWIndex) (q : List ℚ) (level ef : Nat) :
    Nat → SLState → List SR
  | 0, st => sortDesc st.results
  | fuel + 1, st =>
    match slStep m g q level ef st with
    | .empty rs => rs
    | .brk _ rs => rs
    | .next _ st2 => slGo m g q level ef fuel st2

/-- Initial `searchLayer` state: visited seeded with the entry points, and
each entry point with a live node pushed (in order, with duplicates) into
both the candidate and the result arrays; candidates then sorted descending
(`results` stays unsorted until the first loop iteration). -/
def slInit (m : SimDist) (g : HNSWIndex) (q : List ℚ) (eps : List PId) : SLState :=
  let visited := eps.foldl setInsert []
  let cr := eps.foldl (fun acc ep =>
    match g.getNode ep with
    | none => acc
    | some n => acc ++ [(⟨ep, m.sim q n.vector⟩ : SR)]) []
  ⟨visited, sortDesc cr, cr⟩

/-- Total number of neighbor-list entries, used to bound the search fuel. -/
def HNSWIndex.neighborTotal (g : HNSWIndex) : Nat :=
  (g.nodes.map (fun p => ((p.2.neighbors.map (fun e => e.2.length)).sum))).sum

def slFuel (g : HNSWIndex) (eps : List PId) : Nat :=
  eps.length + g.size + g.neighborTotal + 1

/-- The bounded best-first search `searchLayer(queryVector, entryPoints, ef,
level)` shared by insert and query. -/
def searchLayer (m : SimDist) (g : HNSWIndex) (q : List ℚ) (eps : List PId)
    (ef level : Nat) : List SR :=
  slGo m g q level ef (slFuel g eps) (slInit m g q eps)

/-- Neighbor selection (`selectNeighbors`): top candidates by score.  The
`queryVector` parameter of the source is unused there as well. -/
def selectNeighbors (_q : List ℚ) (candidates : List SR) (maxConnections : Nat) :
    List PId :=
  ((sortDesc candidates).take maxConnections).map (fun r => r.id)

/-- One iteration of the edge-dropping loop of `pruneConnections`: an id not
kept is deleted from the node's set, and its own back-edge at the same level
(when the neighbor still exists and participates in the level) is deleted
too. -/
def pruneStep (pid : PId) (level : Nat) (keep : List PId)
    (acc : HNSWIndex) (nid : PId) : HNSWIndex :=
  if nid ∈ keep then acc
  else
    match (acc.adjustSet pid level (fun s => setErase s nid)).getNode nid with
    | none => acc.adjustSet pid level (fun s => setErase s nid)
    | some nb =>
      if (alGet nb.neighbors level).isSome then
        (acc.adjustSet pid level (fun s => setErase s nid)).adjustSet nid level
          (fun s => setErase s pid)
      else acc.adjustSet pid level (fun s => setErase s nid)

/-- Degree pruning (`pruneConnections`): score all live neighbors of `pid`
at `level` against the node's own vector, keep the best `maxConnections`,
and drop every other edge together with its back-edge (iterating over a
snapshot `Array.from(neighbors)` of the set). -/
def pruneConnections (m : SimDist) (g : HNSWIndex) (pid : PId)
    (level maxConnections : Nat) : HNSWIndex :=
  match g.getNode pid with
  | none => g
  | some node =>
    match alGet node.neighbors level with
    | none => g
    | some nbrs =>
      if nbrs.length ≤ maxConnections then g
      else
        let scored := nbrs.foldl (fun acc nid =>
          match g.getNode nid with
          | none => acc
          | some nb => acc ++ [(⟨nid, m.sim node.vector nb.vector⟩ : SR)]) []
        let keep := ((sortDesc scored).take maxConnections).map (fun r => r.id)
        nbrs.foldl (pruneStep pid level keep) g

/-- Per-level degree cap, `l === 0 ? this.config.Mmax0 : this.config.M`. -/
def capAt (cfg : HNSWConfig) (l : Nat) : Nat := if l = 0 then cfg.Mmax0 else cfg.M

/-- Connecting one selected neighbor during insert: add the edge on the new
node's side, and when the neighbor exists and participates in `level`, add
the back-edge and prune the neighbor if its degree now exceeds the cap. -/
def connectOne (m : SimDist) (g : HNSWIndex) (newId : PId)
    (level maxConnections : Nat) (nid : PId) : HNSWIndex :=
  match (g.adjustSet newId level (fun s => setInsert s nid)).getNode nid with
  | none => g.adjustSet newId level (fun s => setInsert s nid)
  | some nb =>
    if (alGet nb.neighbors level).isSome then
      if maxConnections < ((g.adjustSet newId level (fun s => setInsert s nid)).adjustSet
          nid level (fun s => setInsert s newId)).setLen nid level then
        pruneConnections m ((g.adjustSet newId level (fun s => setInsert s nid)).adjustSet
          nid level (fun s => setInsert s newId)) nid level maxConnections
      else (g.adjustSet newId level (fun s => setInsert s nid)).adjustSet
        nid level (fun s => setInsert s newId)
    else g.adjustSet newId level (fun s => setInsert s nid)

/-- The descending per-level insertion loop of `insert`: at each level run
`searchLayer` with `efConstruction` candidates, select up to the level cap of
neighbors, connect them bidirectionally (pruning overfull neighbors), and
continue from the best-scoring found candidate. -/
def insertLevels (m : SimDist) (cfg : HNSWConfig) (newId : PId) (vec : List ℚ) :
    List Nat → HNSWIndex × PId → HNSWIndex × PId
  | [], acc => acc
  | l :: ls, (g, cur) =>
    let nbrs := searchLayer m g vec [cur] cfg.efConstruction l
    let selected := selectNeighbors vec nbrs (capAt cfg l)
    let g2 := selected.foldl (fun acc nid => connectOne m acc newId l (capAt cfg l) nid) g
    let cur2 := match nbrs.head? with
      | some r => r.id
      | none => cur
    insertLevels m cfg newId vec ls (g2, cur2)

/-- Levels `hi, hi-1, ..., lo+1` (empty when `hi ≤ lo`), for the greedy
descent loops `for (let l = maxLevel; l > level; l--)`. -/
def levelsAbove (hi lo : Nat) : List Nat :=
  (List.range (hi - lo)).map (fun i => hi - i)

/-- Levels `a, a-1, ..., 0`, for `for (let l = min(level, maxLevel); l >= 0; l--)`. -/
def levelsDownTo0 (a : Nat) : List Nat :=
  (List.range (a + 1)).map (fun i => a - i)

/-- The node constructed by `insert`, with an empty neighbor set for every
layer `0..level` (`node.neighbors.set(l, new Set())`). -/
def freshNode (pid : PId) (vec : List ℚ) (level : Nat) : HNSWNode :=
  ⟨pid, vec, level, (List.range (level + 1)).map (fun l => (l, []))⟩

/-- `this.nodes.set(id, node)` for the new node of `insert`. -/
def addFreshNode (g : HNSWIndex) (pid : PId) (vec : List ℚ) (level : Nat) :
    HNSWIndex :=
  { g with nodes := alSet g.nodes pid (freshNode pid vec level) }

/-- The engine `insert(id, vector)` with the sampled level made explicit.
An existing id only gets its vector replaced in place (no topology change).
Otherwise the node is created with empty neighbor sets for layers
`0..level`, inserted into the map, and — unless it is the first node — the
graph is greedily descended and linked level by level; a level above the
current maximum makes the new node the entry point. -/
def HNSWIndex.insert (m : SimDist) (g : HNSWIndex) (pid : PId) (vec : List ℚ)
    (level : Nat) : HNSWIndex :=
  match g.getNode pid with
  | some _ =>
    { g with nodes := alAdjust g.nodes pid (fun n => { n with vector := vec }) }
  | none =>
    match g.entryPoint with
    | none =>
      { addFreshNode g pid vec level with entryPoint := some pid, maxLevel := level }
    | some ep =>
      let cur0 := (levelsAbove g.maxLevel level).foldl
        (fun cur l => greedyClosest m (addFreshNode g pid vec level) vec cur l) ep
      let g2 := (insertLevels m g.config pid vec
        (levelsDownTo0 (min level g.maxLevel)) (addFreshNode g pid vec level, cur0)).1
      if g.maxLevel < level then { g2 with entryPoint := some pid, maxLevel := level }
      else g2

/-- The engine `search(queryVector, k, efSearch?)`: empty graph gives `[]`;
otherwise greedy descent from the entry point through levels `maxLevel..1`,
then `searchLayer` at level 0 with `ef = efSearch ?? config.efSearch`,
returning the first `k` results. -/
def HNSWIndex.search (m : SimDist) (g : HNSWIndex) (q : List ℚ) (k : Nat)
    (efSearch : Option Nat) : List SR :=
  match g.entryPoint with
  | none => []
  | some ep =>
    let ef := efSearch.getD g.config.efSearch
    let cur := (levelsAbove g.maxLevel 0).foldl
      (fun cur l => greedyClosest m g q cur l) ep
    (searchLayer m g q [cur] ef 0).take k

/-- The edge-deletion loop of `remove(id)`: for every level and neighbor id
of the removed node, delete the back-reference from that neighbor's set at
the same level (guarded by existence and level participation). -/
def removeEdges (g : HNSWIndex) (pid : PId) (node : HNSWNode) : HNSWIndex :=
  node.neighbors.foldl (fun acc e =>
    e.2.foldl (fun acc2 nid =>
      match acc2.getNode nid with
      | none => acc2
      | some nb =>
        if (alGet nb.neighbors e.1).isSome then
          acc2.adjustSet nid e.1 (fun s => setErase s pid)
        else acc2) acc) g

/-- `this.nodes.delete(id)`. -/
def deleteNodeRow (g : HNSWIndex) (pid : PId) : HNSWIndex :=
  { g with nodes := alErase g.nodes pid }

/-- The entry-point reselection of `remove`: empty graph clears entry point
and max level; otherwise scan the node map with `layer >= maxLevel` starting
from 0 (so the last node with maximal layer wins). -/
def reselectEntry (g : HNSWIndex) : HNSWIndex :=
  if g.nodes.isEmpty then { g with entryPoint := none, maxLevel := 0 }
  else
    match g.nodes.foldl (fun acc p =>
      if acc.1 ≤ p.2.layer then (p.2.layer, some p.1) else acc)
      ((0 : Nat), (none : Option PId)) with
    | (ml, e) => { g with entryPoint := e, maxLevel := ml }

/-- The engine `remove(id)`: drop every edge referencing the node (both
directions), delete the node, and when it was the entry point reselect it
among the remaining nodes. -/
def HNSWIndex.remove (g : HNSWIndex) (pid : PId) : HNSWIndex :=
  match g.getNode pid with
  | none => g
  | some node =>
    if g.entryPoint = some pid then
      reselectEntry (deleteNodeRow (removeEdges g pid node) pid)
    else deleteNodeRow (removeEdges g pid node) pid

/-- Serialized node shape (`HNSWState.nodes` elements). -/
structure HNSWStateNode where
  id : PId
  vector : List ℚ
  layer : Nat
  neighbors : List (Nat × List PId)
deriving DecidableEq, Repr

/-- Serialized index (`HNSWState`). -/
structure HNSWState where
  config : HNSWConfig
  entryPoint : Option PId
  maxLevel : Nat
  nodes : List HNSWStateNode
deriving DecidableEq, Repr

/-- The engine `serialize()`: config, entry point, max level, and for every
node (in map iteration order) its id, vector, layer and per-level neighbor
lists. -/
def HNSWIndex.serialize (g : HNSWIndex) : HNSWState :=
  ⟨g.config, g.entryPoint, g.maxLevel,
   g.nodes.map (fun p => ⟨p.2.id, p.2.vector, p.2.layer, p.2.neighbors⟩)⟩

/-- The engine `deserialize(state)`: rebuild the node map keyed by each
serialized node's id (`new HNSWIndex(state.config)` spreads a complete
config over the defaults, which is the identity). -/
def HNSWIndex.deserialize (st : HNSWState) : HNSWIndex :=
  ⟨st.config,
   st.nodes.map (fun nd => (nd.id, ⟨nd.id, nd.vector, nd.layer, nd.neighbors⟩)),
   st.entryPoint, st.maxLevel⟩

/-- The empty index (`new HNSWIndex(config)`). -/
def HNSWIndex.empty (cfg : HNSWConfig) : HNSWIndex := ⟨cfg, [], none, 0⟩

/-- An insert-or-remove engine operation, with the otherwise random level
of an insert made explicit. -/
inductive HOp where
  | ins (pid : PId) (vec : List ℚ) (level : Nat)
  | rem (pid : PId)
deriving DecidableEq, Repr

/-- Apply one operation. -/
def applyHOp (m : SimDist) (g : HNSWIndex) : HOp → HNSWIndex
  | .ins pid vec level => g.insert m pid vec level
  | .rem pid => g.remove pid

/-- Run a sequence of insert/remove operations from the empty index. -/
def runHOps (m : SimDist) (cfg : HNSWConfig) (ops : List HOp) : HNSWIndex :=
  ops.foldl (applyHOp m) (HNSWIndex.empty cfg)

/-! ## Degree-cap invariant machinery (claim C4) -/

/-- Every node's neighbor set at level 0 has size at most `Mmax0`, and at
each level above 0 at most `M` (absent sets count as 0). -/
def DegreeCap (cfg : HNSWConfig) (g : HNSWIndex) : Prop :=
  ∀ pid l, g.setLen pid l ≤ capAt cfg l

/-- Neighbor sets are duplicate-free (JS `Set` semantics). -/
def NodupSets (g : HNSWIndex) : Prop :=
  ∀ pid l s, g.getSet pid l = some s → s.Nodup

/-- Effect of one set mutation on every set of the graph. -/
theorem getSet_adjustSet (g : HNSWIndex) (pid : PId) (l : Nat)
    (f : List PId → List PId) (p2 : PId) (l2 : Nat) :
    (g.adjustSet pid l f).getSet p2 l2 =
      if p2 = pid ∧ l2 = l then (g.getSet pid l).map f else g.getSet p2 l2 := by
  unfold HNSWIndex.adjustSet HNSWIndex.getSet HNSWIndex.getNode
  simp only [alGet_alAdjust]
  by_cases h1 : p2 = pid
  · subst h1
    cases hn : alGet g.nodes p2 with
    | none => by_cases h2 : l2 = l <;> simp [h2]
    | some n =>
        by_cases h2 : l2 = l <;>
          simp [h2, alGet_alAdjust] <;> cases alGet n.neighbors l <;> simp
  · simp [h1]

theorem getSet_record (cfg : HNSWConfig) (nodes : List (PId × HNSWNode))
    (e1 e2 : Option PId) (m1 m2 : Nat) (p2 : PId) (l2 : Nat) :
    (HNSWIndex.mk cfg nodes e1 m1).getSet p2 l2 =
      (HNSWIndex.mk cfg nodes e2 m2).getSet p2 l2 := rfl

theorem setLen_of_getSet_eq {g1 g2 : HNSWIndex} {p2 : PId} {l2 : Nat}
    (h : g1.getSet p2 l2 = g2.getSet p2 l2) : g1.setLen p2 l2 = g2.setLen p2 l2 := by
  unfold HNSWIndex.setLen; rw [h]

theorem setLen_adjustSet_other (g : HNSWIndex) (pid : PId) (l : Nat)
    (f : List PId → List PId) (p2 : PId) (l2 : Nat) (h : ¬(p2 = pid ∧ l2 = l)) :
    (g.adjustSet pid l f).setLen p2 l2 = g.setLen p2 l2 := by
  unfold HNSWIndex.setLen
  rw [getSet_adjustSet, if_neg h]

theorem setLen_adjustSet_le (g : HNSWIndex) (pid : PId) (l : Nat)
    (f : List PId → List PId) (hf : ∀ s, (f s).length ≤ s.length)
    (p2 : PId) (l2 : Nat) :
    (g.adjustSet pid l f).setLen p2 l2 ≤ g.setLen p2 l2 := by
  unfold HNSWIndex.setLen
  rw [getSet_adjustSet]
  by_cases h : p2 = pid ∧ l2 = l
  · rw [if_pos h]
    rcases h with ⟨rfl, rfl⟩
    cases hs : g.getSet p2 l2 with
    | none => simp
    | some s => simpa using hf s
  · rw [if_neg h]

theorem setLen_adjustSet_insert (g : HNSWIndex) (pid : PId) (l : Nat) (x : PId) :
    (g.adjustSet pid l (fun s => setInsert s x)).setLen pid l ≤ g.setLen pid l + 1 := by
  unfold HNSWIndex.setLen
  rw [getSet_adjustSet, if_pos ⟨rfl, rfl⟩]
  cases hs : g.getSet pid l with
  | none => simp
  | some s => simpa using length_setInsert s x

theorem nodupSets_adjustSet (g : HNSWIndex) (pid : PId) (l : Nat)
    (f : List PId → List PId) (hf : ∀ s, s.Nodup → (f s).Nodup)
    (hg : NodupSets g) : NodupSets (g.adjustSet pid l f) := by
  intro p2 l2 s hs
  rw [getSet_adjustSet] at hs
  by_cases h : p2 = pid ∧ l2 = l
  · rw [if_pos h] at hs
    cases hs0 : g.getSet pid l with
    | none => rw [hs0] at hs; cases hs
    | some s0 =>
        rw [hs0] at hs
        have hfs : f s0 = s := by simpa using hs
        exact hfs ▸ hf s0 (hg _ _ _ hs0)
  · rw [if_neg h] at hs
    exact hg _ _ _ hs

/-- Generic preservation of a predicate along a left fold. -/
theorem foldl_preserve {α β : Type} (P : α → Prop) (step : α → β → α)
    (hstep : ∀ acc x, P acc → P (step acc x)) :
    ∀ (xs : List β) (a : α), P a → P (xs.foldl step a) := by
  intro xs
  induction xs with
  | nil => intro a ha; exact ha
  | cons x xs ih => intro a ha; exact ih _ (hstep a x ha)

theorem adjustSet_config (g : HNSWIndex) (pid : PId) (l : Nat)
    (f : List PId → List PId) : (g.adjustSet pid l f).config = g.config := rfl

theorem pruneStep_config (pid : PId) (level : Nat) (keep : List PId)
    (acc : HNSWIndex) (nid : PId) :
    (pruneStep pid level keep acc nid).config = acc.config := by
  unfold pruneStep
  split
  · rfl
  · split
    · rfl
    · split <;> rfl

theorem pruneStep_setLen_le (pid : PId) (level : Nat) (keep : List PId)
    (acc : HNSWIndex) (nid : PId) (p2 : PId) (l2 : Nat) :
    (pruneStep pid level keep acc nid).setLen p2 l2 ≤ acc.setLen p2 l2 := by
  have h1 : ∀ p3 l3, ((acc.adjustSet pid level (fun s => setErase s nid)).setLen p3 l3) ≤
      acc.setLen p3 l3 :=
    fun p3 l3 => setLen_adjustSet_le _ _ _ _ (fun s => length_setErase s nid) p3 l3
  unfold pruneStep
  split
  · exact le_refl _
  · split
    · exact h1 p2 l2
    · split
      · calc ((acc.adjustSet pid level (fun s => setErase s nid)).adjustSet nid level
                (fun s => setErase s pid)).setLen p2 l2
            ≤ (acc.adjustSet pid level (fun s => setErase s nid)).setLen p2 l2 :=
              setLen_adjustSet_le _ _ _ _ (fun s => length_setErase s pid) p2 l2
          _ ≤ acc.setLen p2 l2 := h1 p2 l2
      · exact h1 p2 l2

theorem pruneStep_nodup (pid : PId) (level : Nat) (keep : List PId)
    (acc : HNSWIndex) (nid : PId) (hg : NodupSets acc) :
    NodupSets (pruneStep pid level keep acc nid) := by
  have h1 : NodupSets (acc.adjustSet pid level (fun s => setErase s nid)) :=
    nodupSets_adjustSet _ _ _ _ (fun s hs => nodup_setErase s nid hs) hg
  unfold pruneStep
  split
  · exact hg
  · split
    · exact h1
    · split
      · exact nodupSets_adjustSet _ _ _ _ (fun s hs => nodup_setErase s pid hs) h1
      · exact h1

theorem pruneConnections_config (m : SimDist) (g : HNSWIndex) (pid : PId)
    (level mc : Nat) : (pruneConnections m g pid level mc).config = g.config := by
  unfold pruneConnections
  rcases hn : g.getNode pid with _ | node
  · rfl
  · simp only []
    rcases hnb : alGet node.neighbors level with _ | nbrs
    · rfl
    · simp only []
      by_cases hlen : nbrs.length ≤ mc
      · rw [if_pos hlen]
      · rw [if_neg hlen]
        exact foldl_preserve (fun a => a.config = g.config) _
          (fun acc x h => (pruneStep_config _ _ _ acc x).trans h) nbrs g rfl

theorem pruneConnections_setLen_le (m : SimDist) (g : HNSWIndex) (pid : PId)
    (level mc : Nat) (p2 : PId) (l2 : Nat) :
    (pruneConnections m g pid level mc).setLen p2 l2 ≤ g.setLen p2 l2 := by
  unfold pruneConnections
  rcases hn : g.getNode pid with _ | node
  · exact le_refl _
  · simp only []
    rcases hnb : alGet node.neighbors level with _ | nbrs
    · exact le_refl _
    · simp only []
      by_cases hlen : nbrs.length ≤ mc
      · rw [if_pos hlen]
      · rw [if_neg hlen]
        exact foldl_preserve (fun a => ∀ p3 l3, a.setLen p3 l3 ≤ g.setLen p3 l3) _
          (fun acc x h p3 l3 => (pruneStep_setLen_le _ _ _ acc x p3 l3).trans (h p3 l3))
          nbrs g (fun _ _ => le_refl _) p2 l2

theorem pruneConnections_nodup (m : SimDist) (g : HNSWIndex) (pid : PId)
    (level mc : Nat) (hg : NodupSets g) :
    NodupSets (pruneConnections m g pid level mc) := by
  unfold pruneConnections
  rcases hn : g.getNode pid with _ | node
  · exact hg
  · simp only []
    rcases hnb : alGet node.neighbors level with _ | nbrs
    · exact hg
    · simp only []
      by_cases hlen : nbrs.length ≤ mc
      · rw [if_pos hlen]; exact hg
      · rw [if_neg hlen]
        exact foldl_preserve NodupSets _
          (fun acc x h => pruneStep_nodup _ _ _ acc x h) nbrs g hg

/-- One prune-loop step keeps the pruned node's set inside the old set, and
drops the processed id when it is not kept. -/
theorem pruneStep_getSet_self (pid : PId) (level : Nat) (keep : List PId)
    (acc : HNSWIndex) (nid : PId) (s : List PId)
    (h : acc.getSet pid level = some s) :
    ∃ s1, (pruneStep pid level keep acc nid).getSet pid level = some s1 ∧
      (∀ y ∈ s1, y ∈ s) ∧ (nid ∉ keep → ∀ y ∈ s1, y ≠ nid) ∧
      (s.Nodup → s1.Nodup) := by
  have h1 : (acc.adjustSet pid level (fun s => setErase s nid)).getSet pid level =
      some (setErase s nid) := by
    rw [getSet_adjustSet, if_pos ⟨rfl, rfl⟩, h]; rfl
  unfold pruneStep
  split
  · exact ⟨s, h, fun y hy => hy, fun hk => absurd (by assumption) hk, fun hnd => hnd⟩
  · split
    · exact ⟨setErase s nid, h1,
        fun y hy => ((mem_setErase s nid y).mp hy).1,
        fun _ y hy => ((mem_setErase s nid y).mp hy).2,
        fun hnd => nodup_setErase s nid hnd⟩
    · split
      · by_cases hpn : pid = nid
        · subst hpn
          refine ⟨setErase (setErase s pid) pid, ?_, ?_, ?_, ?_⟩
          · rw [getSet_adjustSet, if_pos ⟨rfl, rfl⟩, h1]; rfl
          · intro y hy
            exact ((mem_setErase _ pid y).mp ((mem_setErase _ pid y).mp hy).1).1
          · intro _ y hy
            exact ((mem_setErase _ pid y).mp ((mem_setErase _ pid y).mp hy).1).2
          · intro hnd
            exact nodup_setErase _ pid (nodup_setErase s pid hnd)
        · refine ⟨setErase s nid, ?_, ?_, ?_, ?_⟩
          · rw [getSet_adjustSet, if_neg (fun hcon => hpn hcon.1), h1]
          · intro y hy; exact ((mem_setErase s nid y).mp hy).1
          · intro _ y hy; exact ((mem_setErase s nid y).mp hy).2
          · intro hnd; exact nodup_setErase s nid hnd
      · exact ⟨setErase s nid, h1,
          fun y hy => ((mem_setErase s nid y).mp hy).1,
          fun _ y hy => ((mem_setErase s nid y).mp hy).2,
          fun hnd => nodup_setErase s nid hnd⟩

/-- The prune loop: whatever remains of the pruned node's set is contained
in the kept-id list. -/
theorem pruneFold_keep (pid : PId) (level : Nat) (keep : List PId) :
    ∀ (rest : List PId) (acc : HNSWIndex) (s : List PId),
    acc.getSet pid level = some s → s.Nodup → (∀ x ∈ s, x ∈ keep ∨ x ∈ rest) →
    ∃ s2, (rest.foldl (pruneStep pid level keep) acc).getSet pid level = some s2 ∧
      s2.Nodup ∧ ∀ x ∈ s2, x ∈ keep := by
  intro rest
  induction rest with
  | nil =>
      intro acc s h hnd hsub
      exact ⟨s, h, hnd, fun x hx => (hsub x hx).resolve_right (by simp)⟩
  | cons r rs ih =>
      intro acc s h hnd hsub
      obtain ⟨s1, h1, hmem, hnotr, hnd1⟩ :=
        pruneStep_getSet_self pid level keep acc r s h
      refine ih _ s1 h1 (hnd1 hnd) ?_
      intro x hx
      rcases hsub x (hmem x hx) with hk | hr
      · exact Or.inl hk
      · rcases List.mem_cons.mp hr with rfl | hmm
        · by_cases hrk : x ∈ keep
          · exact Or.inl hrk
          · exact absurd rfl (hnotr hrk x hx)
        · exact Or.inr hmm

/-- A duplicate-free list contained in another list is no longer than it. -/
theorem nodup_subset_length {α : Type} [DecidableEq α] (s2 keep : List α)
    (hnd : s2.Nodup) (hsub : ∀ x ∈ s2, x ∈ keep) : s2.length ≤ keep.length := by
  calc s2.length = s2.toFinset.card := (List.toFinset_card_of_nodup hnd).symm
    _ ≤ keep.toFinset.card := by
        apply Finset.card_le_card
        intro x hx
        rw [List.mem_toFinset] at hx ⊢
        exact hsub x hx
    _ ≤ keep.length := keep.toFinset_card_le

/-- After pruning, the pruned node's set at the pruned level is within the
cap (trivially so in the branches where the source returns early). -/
theorem pruneConnections_cap (m : SimDist) (g : HNSWIndex) (pid : PId)
    (level mc : Nat) (hg : NodupSets g) :
    (pruneConnections m g pid level mc).setLen pid level ≤ mc := by
  unfold pruneConnections
  rcases hn : g.getNode pid with _ | node
  · have h0 : g.getSet pid level = none := by
      unfold HNSWIndex.getSet; rw [hn]; rfl
    unfold HNSWIndex.setLen; rw [h0]; simp
  · simp only []
    rcases hnb : alGet node.neighbors level with _ | nbrs
    · have h0 : g.getSet pid level = none := by
        unfold HNSWIndex.getSet; rw [hn]; simpa using hnb
      unfold HNSWIndex.setLen; rw [h0]; simp
    · simp only []
      have hgs : g.getSet pid level = some nbrs := by
        unfold HNSWIndex.getSet; rw [hn]; simpa using hnb
      by_cases hlen : nbrs.length ≤ mc
      · rw [if_pos hlen]
        unfold HNSWIndex.setLen; rw [hgs]; simpa using hlen
      · rw [if_neg hlen]
        obtain ⟨s2, h2, hnd2, hsub2⟩ :=
          pruneFold_keep pid level _ nbrs g nbrs hgs (hg _ _ _ hgs)
            (fun x hx => Or.inr hx)
        unfold HNSWIndex.setLen
        rw [h2]
        simp only [Option.getD_some]
        calc s2.length
            ≤ (((sortDesc (nbrs.foldl (fun acc nid =>
                match g.getNode nid with
                | none => acc
                | some nb => acc ++ [(⟨nid, m.sim node.vector nb.vector⟩ : SR)]) [])).take
                  mc).map (fun r => r.id)).length :=
              nodup_subset_length _ _ hnd2 hsub2
          _ ≤ mc := by
              rw [List.length_map]
              exact (List.length_take_le _ _).trans (by simp)

theorem setInsert_mem_eq [DecidableEq α] (s : List α) (x : α) (h : x ∈ s) :
    setInsert s x = s := by simp [setInsert, h]

theorem pruneStep_getSet_other_level (pid : PId) (level : Nat) (keep : List PId)
    (acc : HNSWIndex) (nid : PId) (p2 : PId) (l2 : Nat) (hl : l2 ≠ level) :
    (pruneStep pid level keep acc nid).getSet p2 l2 = acc.getSet p2 l2 := by
  have hne : ∀ p3 : PId, ¬(p2 = p3 ∧ l2 = level) := fun p3 hcon => hl hcon.2
  unfold pruneStep
  split
  · rfl
  · split
    · rw [getSet_adjustSet, if_neg (hne pid)]
    · split
      · rw [getSet_adjustSet, if_neg (hne nid), getSet_adjustSet, if_neg (hne pid)]
      · rw [getSet_adjustSet, if_neg (hne pid)]

theorem pruneConnections_getSet_other_level (m : SimDist) (g : HNSWIndex)
    (pid : PId) (level mc : Nat) (p2 : PId) (l2 : Nat) (hl : l2 ≠ level) :
    (pruneConnections m g pid level mc).getSet p2 l2 = g.getSet p2 l2 := by
  unfold pruneConnections
  rcases hn : g.getNode pid with _ | node
  · rfl
  · simp only []
    rcases hnb : alGet node.neighbors level with _ | nbrs
    · rfl
    · simp only []
      by_cases hlen : nbrs.length ≤ mc
      · rw [if_pos hlen]
      · rw [if_neg hlen]
        exact foldl_preserve (fun a => a.getSet p2 l2 = g.getSet p2 l2) _
          (fun acc x h => (pruneStep_getSet_other_level _ _ _ acc x p2 l2 hl).trans h)
          nbrs g rfl

/-- One `connectOne` step: duplicate-freeness is kept, sets other than the
new node's level-`l` set stay within their caps, the new node's level-`l`
set grows by at most one, and no set at any other level changes. -/
theorem connectOne_inv (m : SimDist) (cfg : HNSWConfig) (newId : PId) (l : Nat)
    (g : HNSWIndex) (nid : PId) (j : Nat)
    (hnd : NodupSets g)
    (hothers : ∀ p2 l2, ¬(p2 = newId ∧ l2 = l) → g.setLen p2 l2 ≤ capAt cfg l2)
    (hself : g.setLen newId l ≤ j) :
    ∀ g2, g2 = connectOne m g newId l (capAt cfg l) nid →
    NodupSets g2 ∧
    (∀ p2 l2, ¬(p2 = newId ∧ l2 = l) → g2.setLen p2 l2 ≤ capAt cfg l2) ∧
    g2.setLen newId l ≤ j + 1 ∧
    (∀ p2 l2, l2 ≠ l → g2.getSet p2 l2 = g.getSet p2 l2) ∧
    g2.config = g.config := by
  intro g2 hg2
  have hg1nd : NodupSets (g.adjustSet newId l (fun s => setInsert s nid)) :=
    nodupSets_adjustSet _ _ _ _ (fun s hs => nodup_setInsert s nid hs) hnd
  have hg1self : (g.adjustSet newId l (fun s => setInsert s nid)).setLen newId l ≤ j + 1 :=
    (setLen_adjustSet_insert g newId l nid).trans (Nat.add_le_add_right hself 1)
  have hg1others : ∀ p2 l2, ¬(p2 = newId ∧ l2 = l) →
      (g.adjustSet newId l (fun s => setInsert s nid)).setLen p2 l2 ≤ capAt cfg l2 :=
    fun p2 l2 h => (setLen_adjustSet_other g newId l _ p2 l2 h) ▸ hothers p2 l2 h
  have hg1lvl : ∀ p2 l2, l2 ≠ l →
      (g.adjustSet newId l (fun s => setInsert s nid)).getSet p2 l2 = g.getSet p2 l2 :=
    fun p2 l2 hl => by rw [getSet_adjustSet, if_neg (fun hcon => hl hcon.2)]
  subst hg2
  unfold connectOne
  split
  · exact ⟨hg1nd, hg1others, hg1self, hg1lvl, rfl⟩
  · split
    case isTrue nb heq hsome =>
      by_cases hx : nid = newId
      · subst hx
        -- self-edge: the second `add` inserts an element already present
        have hsame : (g.adjustSet nid l (fun s => setInsert s nid)).adjustSet nid l
            (fun s => setInsert s nid) = g.adjustSet nid l
              (fun s => setInsert s (nid : PId)) ∨ True := Or.inr trivial
        have hB : ∀ p2 l2,
            ((g.adjustSet nid l (fun s => setInsert s nid)).adjustSet nid l
              (fun s => setInsert s nid)).getSet p2 l2 =
            (g.adjustSet nid l (fun s => setInsert s nid)).getSet p2 l2 := by
          intro p2 l2
          rw [getSet_adjustSet]
          by_cases hc : p2 = nid ∧ l2 = l
          · rw [if_pos hc]
            rcases hc with ⟨rfl, rfl⟩
            rw [getSet_adjustSet, if_pos ⟨rfl, rfl⟩]
            cases hs : g.getSet p2 l2 with
            | none => rfl
            | some s =>
                have hmem : p2 ∈ setInsert s p2 :=
                  (mem_setInsert s p2 p2).mpr (Or.inl rfl)
                simp [setInsert_mem_eq _ _ hmem]
          · rw [if_neg hc]
        have hBnd : NodupSets ((g.adjustSet nid l (fun s => setInsert s nid)).adjustSet
            nid l (fun s => setInsert s nid)) :=
          fun p2 l2 s hs => hg1nd p2 l2 s ((hB p2 l2) ▸ hs)
        have hBothers : ∀ p2 l2, ¬(p2 = nid ∧ l2 = l) →
            ((g.adjustSet nid l (fun s => setInsert s nid)).adjustSet nid l
              (fun s => setInsert s nid)).setLen p2 l2 ≤ capAt cfg l2 :=
          fun p2 l2 h => (setLen_of_getSet_eq (hB p2 l2)) ▸ hg1others p2 l2 h
        have hBself : ((g.adjustSet nid l (fun s => setInsert s nid)).adjustSet nid l
            (fun s => setInsert s nid)).setLen nid l ≤ j + 1 :=
          (setLen_of_getSet_eq (hB nid l)) ▸ hg1self
        have hBlvl : ∀ p2 l2, l2 ≠ l →
            ((g.adjustSet nid l (fun s => setInsert s nid)).adjustSet nid l
              (fun s => setInsert s nid)).getSet p2 l2 = g.getSet p2 l2 :=
          fun p2 l2 hl => (hB p2 l2).trans (hg1lvl p2 l2 hl)
        split
        · -- prune the (new) node itself back below the cap
          constructor
          · exact pruneConnections_nodup _ _ _ _ _ hBnd
          constructor
          · intro p2 l2 h
            exact (pruneConnections_setLen_le _ _ _ _ _ p2 l2).trans (hBothers p2 l2 h)
          constructor
          · exact (pruneConnections_setLen_le _ _ _ _ _ nid l).trans hBself
          constructor
          · intro p2 l2 hl
            exact (pruneConnections_getSet_other_level _ _ _ _ _ p2 l2 hl).trans
              (hBlvl p2 l2 hl)
          · exact (pruneConnections_config _ _ _ _ _).trans rfl
        · exact ⟨hBnd, hBothers, hBself, hBlvl, rfl⟩
      · -- distinct neighbor: its set grows by one and is pruned when overfull
        have hBnd : NodupSets ((g.adjustSet newId l (fun s => setInsert s nid)).adjustSet
            nid l (fun s => setInsert s newId)) :=
          nodupSets_adjustSet _ _ _ _ (fun s hs => nodup_setInsert s newId hs) hg1nd
        have hBself : ((g.adjustSet newId l (fun s => setInsert s nid)).adjustSet nid l
            (fun s => setInsert s newId)).setLen newId l ≤ j + 1 := by
          rw [setLen_adjustSet_other _ _ _ _ newId l
            (fun hcon => hx (hcon.1.symm))]
          exact hg1self
        have hBothers : ∀ p2 l2, ¬(p2 = newId ∧ l2 = l) → ¬(p2 = nid ∧ l2 = l) →
            ((g.adjustSet newId l (fun s => setInsert s nid)).adjustSet nid l
              (fun s => setInsert s newId)).setLen p2 l2 ≤ capAt cfg l2 := by
          intro p2 l2 h hn2
          rw [setLen_adjustSet_other _ _ _ _ p2 l2 hn2]
          exact hg1others p2 l2 h
        have hBnidle : ((g.adjustSet newId l (fun s => setInsert s nid)).adjustSet nid l
            (fun s => setInsert s newId)).setLen nid l ≤ capAt cfg l + 1 := by
          refine (setLen_adjustSet_insert _ nid l newId).trans ?_
          have := hg1others nid l (fun hcon => hx hcon.1)
          exact Nat.add_le_add_right this 1
        have hBlvl : ∀ p2 l2, l2 ≠ l →
            ((g.adjustSet newId l (fun s => setInsert s nid)).adjustSet nid l
              (fun s => setInsert s newId)).getSet p2 l2 = g.getSet p2 l2 := by
          intro p2 l2 hl
          rw [getSet_adjustSet, if_neg (fun hcon => hl hcon.2)]
          exact hg1lvl p2 l2 hl
        split
        · constructor
          · exact pruneConnections_nodup _ _ _ _ _ hBnd
          constructor
          · intro p2 l2 h
            by_cases hn2 : p2 = nid ∧ l2 = l
            · rcases hn2 with ⟨rfl, rfl⟩
              exact pruneConnections_cap _ _ _ _ _ hBnd
            · exact (pruneConnections_setLen_le _ _ _ _ _ p2 l2).trans
                (hBothers p2 l2 h hn2)
          constructor
          · exact (pruneConnections_setLen_le _ _ _ _ _ newId l).trans hBself
          constructor
          · intro p2 l2 hl
            exact (pruneConnections_getSet_other_level _ _ _ _ _ p2 l2 hl).trans
              (hBlvl p2 l2 hl)
          · exact (pruneConnections_config _ _ _ _ _).trans rfl
        · rename_i hnotlt
          constructor
          · exact hBnd
          constructor
          · intro p2 l2 h
            by_cases hn2 : p2 = nid ∧ l2 = l
            · rcases hn2 with ⟨rfl, rfl⟩
              exact Nat.le_of_not_lt hnotlt
            · exact hBothers p2 l2 h hn2
          · exact ⟨hBself, hBlvl, rfl⟩
    case isFalse nb heq hnone =>
      exact ⟨hg1nd, hg1others, hg1self, hg1lvl, rfl⟩

/-- The per-level connect fold: starting from a graph whose sets (apart from
the new node's current-level set, bounded by `j`) respect the caps, after
connecting `sel` neighbors the new node's set is bounded by `j + sel.length`
and everything else still respects the caps. -/
theorem connectFold_inv (m : SimDist) (cfg : HNSWConfig) (newId : PId) (l : Nat) :
    ∀ (sel : List PId) (g : HNSWIndex) (j : Nat),
    NodupSets g →
    (∀ p2 l2, ¬(p2 = newId ∧ l2 = l) → g.setLen p2 l2 ≤ capAt cfg l2) →
    g.setLen newId l ≤ j →
    ∀ g2, g2 = sel.foldl (fun acc nid => connectOne m acc newId l (capAt cfg l) nid) g →
    NodupSets g2 ∧
    (∀ p2 l2, ¬(p2 = newId ∧ l2 = l) → g2.setLen p2 l2 ≤ capAt cfg l2) ∧
    g2.setLen newId l ≤ j + sel.length ∧
    (∀ p2 l2, l2 ≠ l → g2.getSet p2 l2 = g.getSet p2 l2) ∧
    g2.config = g.config := by
  intro sel
  induction sel with
  | nil =>
      intro g j hnd ho hs g2 hg2
      subst hg2
      exact ⟨hnd, ho, by simpa using hs, fun _ _ _ => rfl, rfl⟩
  | cons nid rest ih =>
      intro g j hnd ho hs g2 hg2
      obtain ⟨h1nd, h1o, h1s, h1lvl, h1cfg⟩ :=
        connectOne_inv m cfg newId l g nid j hnd ho hs _ rfl
      obtain ⟨h2nd, h2o, h2s, h2lvl, h2cfg⟩ :=
        ih (connectOne m g newId l (capAt cfg l) nid) (j + 1) h1nd h1o h1s g2
          (by simpa using hg2)
      refine ⟨h2nd, h2o, ?_, ?_, h2cfg.trans h1cfg⟩
      · calc g2.setLen newId l ≤ (j + 1) + rest.length := h2s
          _ = j + (nid :: rest).length := by simp; omega
      · exact fun p2 l2 hl => (h2lvl p2 l2 hl).trans (h1lvl p2 l2 hl)

theorem selectNeighbors_length (q : List ℚ) (cands : List SR) (mc : Nat) :
    (selectNeighbors q cands mc).length ≤ mc := by
  unfold selectNeighbors
  rw [List.length_map]
  exact (List.length_take_le _ _).trans (by simp)

/-- The per-level loop of insert keeps duplicate-freeness and the degree
caps, provided the new node's sets at all pending levels are empty. -/
theorem insertLevels_inv (m : SimDist) (cfg : HNSWConfig) (newId : PId) (vec : List ℚ) :
    ∀ (ls : List Nat) (g : HNSWIndex) (cur : PId),
    ls.Nodup → NodupSets g → DegreeCap cfg g →
    (∀ l2 ∈ ls, g.getSet newId l2 = some []) →
    NodupSets (insertLevels m cfg newId vec ls (g, cur)).1 ∧
    DegreeCap cfg (insertLevels m cfg newId vec ls (g, cur)).1 ∧
    (insertLevels m cfg newId vec ls (g, cur)).1.config = g.config := by
  intro ls
  induction ls with
  | nil =>
      intro g cur _ hnd hcap _
      exact ⟨hnd, hcap, rfl⟩
  | cons l ls ih =>
      intro g cur hlnd hnd hcap hempty
      have hempl : g.setLen newId l = 0 := by
        unfold HNSWIndex.setLen
        rw [hempty l (List.mem_cons_self l ls)]
        rfl
      obtain ⟨h2nd, h2o, h2s, h2lvl, h2cfg⟩ :=
        connectFold_inv m cfg newId l
          (selectNeighbors vec (searchLayer m g vec [cur] cfg.efConstruction l)
            (capAt cfg l)) g 0 hnd (fun p2 l2 _ => hcap p2 l2) (le_of_eq hempl) _ rfl
      have h2cap : DegreeCap cfg
          ((selectNeighbors vec (searchLayer m g vec [cur] cfg.efConstruction l)
            (capAt cfg l)).foldl
              (fun acc nid => connectOne m acc newId l (capAt cfg l) nid) g) := by
        intro p2 l2
        by_cases hc : p2 = newId ∧ l2 = l
        · rw [hc.1, hc.2]
          calc _ ≤ 0 + (selectNeighbors vec (searchLayer m g vec [cur]
                cfg.efConstruction l) (capAt cfg l)).length := h2s
            _ ≤ capAt cfg l := by
                simpa using selectNeighbors_length vec _ (capAt cfg l)
        · exact h2o p2 l2 hc
      have hlnotin : l ∉ ls := (List.nodup_cons.mp hlnd).1
      have hempty2 : ∀ l2 ∈ ls,
          ((selectNeighbors vec (searchLayer m g vec [cur] cfg.efConstruction l)
            (capAt cfg l)).foldl
              (fun acc nid => connectOne m acc newId l (capAt cfg l) nid) g).getSet
            newId l2 = some [] := by
        intro l2 hl2
        have hne : l2 ≠ l := fun hcon => hlnotin (hcon ▸ hl2)
        rw [h2lvl newId l2 hne]
        exact hempty l2 (List.mem_cons_of_mem l hl2)
      obtain ⟨h3nd, h3cap, h3cfg⟩ :=
        ih _ (match (searchLayer m g vec [cur] cfg.efConstruction l).head? with
          | some r => r.id
          | none => cur)
          (List.nodup_cons.mp hlnd).2 h2nd h2cap hempty2
      simp only [insertLevels]
      exact ⟨h3nd, h3cap, h3cfg.trans h2cfg⟩

theorem getSet_updateVector (g : HNSWIndex) (pid : PId) (vec : List ℚ)
    (p2 : PId) (l2 : Nat) :
    ({ g with nodes := alAdjust g.nodes pid (fun n => { n with vector := vec }) } : HNSWIndex).getSet p2 l2 =
      g.getSet p2 l2 := by
  unfold HNSWIndex.getSet HNSWIndex.getNode
  simp only [alGet_alAdjust]
  by_cases h : p2 = pid
  · subst h; cases alGet g.nodes p2 <;> simp
  · simp [h]

theorem alGet_rangeEmpty (n : Nat) (l2 : Nat) :
    alGet ((List.range n).map (fun l => (l, ([] : List PId)))) l2 =
      if l2 < n then some [] else none := by
  induction n with
  | zero => simp [alGet]
  | succ k ih =>
      rw [List.range_succ, List.map_append, List.map_cons, List.map_nil,
        alGet_append_single, ih]
      by_cases h : l2 < k
      · simp [h, Nat.lt_succ_of_lt h]
      · by_cases h2 : l2 = k
        · subst h2
          simp [h, Nat.lt_succ_self]
        · have h3 : ¬ l2 < k + 1 := by omega
          simp [h, h2, h3]

theorem levelsDownTo0_nodup (a : Nat) : (levelsDownTo0 a).Nodup := by
  unfold levelsDownTo0
  refine List.Nodup.map_on ?_ (List.nodup_range _)
  intro i hi j hj hij
  rw [List.mem_range] at hi hj
  omega

theorem levelsDownTo0_le (a : Nat) : ∀ x ∈ levelsDownTo0 a, x ≤ a := by
  intro x hx
  unfold levelsDownTo0 at hx
  rw [List.mem_map] at hx
  obtain ⟨i, _, rfl⟩ := hx
  omega


theorem getSet_addFreshNode (g : HNSWIndex) (pid : PId) (vec : List ℚ)
    (level : Nat) (hn : g.getNode pid = none) (p2 : PId) (l2 : Nat) :
    (addFreshNode g pid vec level).getSet p2 l2 =
      if p2 = pid then (if l2 < level + 1 then some [] else none)
      else g.getSet p2 l2 := by
  unfold addFreshNode HNSWIndex.getSet HNSWIndex.getNode
  simp only []
  rw [alGet_alSet]
  by_cases h : p2 = pid
  · rw [if_pos h, if_pos h]
    simp [freshNode, alGet_rangeEmpty]
  · rw [if_neg h, if_neg h]

theorem addFreshNode_nodup (g : HNSWIndex) (pid : PId) (vec : List ℚ)
    (level : Nat) (hn : g.getNode pid = none) (hnd : NodupSets g) :
    NodupSets (addFreshNode g pid vec level) := by
  intro p2 l2 s hs
  rw [getSet_addFreshNode g pid vec level hn] at hs
  by_cases h : p2 = pid
  · rw [if_pos h] at hs
    by_cases h2 : l2 < level + 1
    · rw [if_pos h2] at hs
      cases hs
      exact List.nodup_nil
    · rw [if_neg h2] at hs; cases hs
  · rw [if_neg h] at hs
    exact hnd _ _ _ hs

theorem addFreshNode_cap (cfg : HNSWConfig) (g : HNSWIndex) (pid : PId)
    (vec : List ℚ) (level : Nat) (hn : g.getNode pid = none)
    (hcap : DegreeCap cfg g) : DegreeCap cfg (addFreshNode g pid vec level) := by
  intro p2 l2
  unfold HNSWIndex.setLen
  rw [getSet_addFreshNode g pid vec level hn]
  by_cases h : p2 = pid
  · rw [if_pos h]
    by_cases h2 : l2 < level + 1 <;> simp [h2]
  · rw [if_neg h]
    exact hcap p2 l2

/-- Inserting preserves the engine invariants. -/
theorem insert_inv (m : SimDist) (cfg : HNSWConfig) (g : HNSWIndex) (pid : PId)
    (vec : List ℚ) (level : Nat) (hc : g.config = cfg) (hnd : NodupSets g)
    (hcap : DegreeCap cfg g) :
    (g.insert m pid vec level).config = cfg ∧ NodupSets (g.insert m pid vec level) ∧
      DegreeCap cfg (g.insert m pid vec level) := by
  rcases hn : g.getNode pid with _ | node0
  · have hg1nd := addFreshNode_nodup g pid vec level hn hnd
    have hg1cap := addFreshNode_cap cfg g pid vec level hn hcap
    unfold HNSWIndex.insert
    rw [hn]
    rcases hep : g.entryPoint with _ | ep
    · simp only []
      exact ⟨hc, hg1nd, hg1cap⟩
    · simp only []
      have hempty : ∀ l2 ∈ levelsDownTo0 (min level g.maxLevel),
          (addFreshNode g pid vec level).getSet pid l2 = some [] := by
        intro l2 hl2
        have hle : l2 ≤ min level g.maxLevel := levelsDownTo0_le _ l2 hl2
        rw [getSet_addFreshNode g pid vec level hn, if_pos rfl, if_pos (by omega)]
      obtain ⟨h3nd, h3cap, h3cfg⟩ :=
        insertLevels_inv m g.config pid vec (levelsDownTo0 (min level g.maxLevel))
          (addFreshNode g pid vec level)
          ((levelsAbove g.maxLevel level).foldl
            (fun cur l => greedyClosest m (addFreshNode g pid vec level) vec cur l) ep)
          (levelsDownTo0_nodup _) hg1nd (hc ▸ hg1cap) hempty
      have h4cap : DegreeCap cfg (insertLevels m g.config pid vec
          (levelsDownTo0 (min level g.maxLevel))
          (addFreshNode g pid vec level,
            (levelsAbove g.maxLevel level).foldl
              (fun cur l => greedyClosest m (addFreshNode g pid vec level) vec cur l)
              ep)).1 := by
        rw [← hc]; exact h3cap
      have h4cfg : (insertLevels m g.config pid vec
          (levelsDownTo0 (min level g.maxLevel))
          (addFreshNode g pid vec level,
            (levelsAbove g.maxLevel level).foldl
              (fun cur l => greedyClosest m (addFreshNode g pid vec level) vec cur l)
              ep)).1.config = cfg := h3cfg.trans hc
      by_cases hml : g.maxLevel < level
      · rw [if_pos hml]
        exact ⟨h4cfg, fun p l s hs => h3nd p l s hs, fun p l => h4cap p l⟩
      · rw [if_neg hml]
        exact ⟨h4cfg, h3nd, h4cap⟩
  · unfold HNSWIndex.insert
    rw [hn]
    refine ⟨hc, ?_, ?_⟩
    · intro p2 l2 s hs
      rw [getSet_updateVector] at hs
      exact hnd p2 l2 s hs
    · intro p2 l2
      have hgv := getSet_updateVector g pid vec p2 l2
      unfold HNSWIndex.setLen
      rw [hgv]
      exact hcap p2 l2

theorem getSet_deleteNodeRow (g : HNSWIndex) (pid : PId) (p2 : PId) (l2 : Nat) :
    (deleteNodeRow g pid).getSet p2 l2 =
      if p2 = pid then none else g.getSet p2 l2 := by
  unfold deleteNodeRow HNSWIndex.getSet HNSWIndex.getNode
  simp only []
  rw [alGet_alErase]
  by_cases h : p2 = pid <;> simp [h]

theorem getSet_reselectEntry (g : HNSWIndex) (p2 : PId) (l2 : Nat) :
    (reselectEntry g).getSet p2 l2 = g.getSet p2 l2 := by
  unfold reselectEntry
  split
  · rfl
  · split
    · rfl

theorem reselectEntry_config (g : HNSWIndex) :
    (reselectEntry g).config = g.config := by
  unfold reselectEntry
  split
  · rfl
  · split
    · rfl

theorem removeEdges_pres (g : HNSWIndex) (pid : PId) (node : HNSWNode) :
    NodupSets g → (NodupSets (removeEdges g pid node) ∧
      (∀ p l, (removeEdges g pid node).setLen p l ≤ g.setLen p l) ∧
      (removeEdges g pid node).config = g.config) := by
  intro hnd
  unfold removeEdges
  refine foldl_preserve (fun a => NodupSets a ∧
    (∀ p l, a.setLen p l ≤ g.setLen p l) ∧ a.config = g.config)
    _ ?_ node.neighbors g ⟨hnd, fun _ _ => le_refl _, rfl⟩
  intro acc e hP
  refine foldl_preserve (fun a => NodupSets a ∧
    (∀ p l, a.setLen p l ≤ g.setLen p l) ∧ a.config = g.config)
    _ ?_ e.2 acc hP
  intro acc2 nid hP2
  obtain ⟨h1, h2, h3⟩ := hP2
  split
  · exact ⟨h1, h2, h3⟩
  · split
    · refine ⟨nodupSets_adjustSet _ _ _ _ (fun s h => nodup_setErase s pid h) h1,
        fun p l => ?_, h3⟩
      exact (setLen_adjustSet_le _ _ _ _ (fun s => length_setErase s pid) p l).trans
        (h2 p l)
    · exact ⟨h1, h2, h3⟩

/-- Removing preserves the engine invariants. -/
theorem remove_inv (cfg : HNSWConfig) (g : HNSWIndex) (pid : PId)
    (hc : g.config = cfg) (hnd : NodupSets g) (hcap : DegreeCap cfg g) :
    (g.remove pid).config = cfg ∧ NodupSets (g.remove pid) ∧
      DegreeCap cfg (g.remove pid) := by
  rcases hn : g.getNode pid with _ | node
  · unfold HNSWIndex.remove
    rw [hn]
    exact ⟨hc, hnd, hcap⟩
  · obtain ⟨h1nd, h1le, h1cfg⟩ := removeEdges_pres g pid node hnd
    have hDnd : NodupSets (deleteNodeRow (removeEdges g pid node) pid) := by
      intro p2 l2 s hs
      rw [getSet_deleteNodeRow] at hs
      by_cases h : p2 = pid
      · rw [if_pos h] at hs; cases hs
      · rw [if_neg h] at hs; exact h1nd p2 l2 s hs
    have hDcap : DegreeCap cfg (deleteNodeRow (removeEdges g pid node) pid) := by
      intro p2 l2
      unfold HNSWIndex.setLen
      rw [getSet_deleteNodeRow]
      by_cases h : p2 = pid
      · rw [if_pos h]; simp
      · rw [if_neg h]
        exact (h1le p2 l2).trans (hcap p2 l2)
    have hDcfg : (deleteNodeRow (removeEdges g pid node) pid).config = cfg :=
      h1cfg.trans hc
    unfold HNSWIndex.remove
    rw [hn]
    simp only []
    by_cases he : g.entryPoint = some pid
    · rw [if_pos he]
      refine ⟨(reselectEntry_config _).trans hDcfg, ?_, ?_⟩
      · intro p2 l2 s hs
        rw [getSet_reselectEntry] at hs
        exact hDnd p2 l2 s hs
      · intro p2 l2
        unfold HNSWIndex.setLen
        rw [getSet_reselectEntry]
        exact hDcap p2 l2
    · rw [if_neg he]
      exact ⟨hDcfg, hDnd, hDcap⟩

/-- Invariant bundle for sequences of operations. -/
theorem runHOps_inv (m : SimDist) (cfg : HNSWConfig) (ops : List HOp) :
    (runHOps m cfg ops).config = cfg ∧ NodupSets (runHOps m cfg ops) ∧
      DegreeCap cfg (runHOps m cfg ops) := by
  unfold runHOps
  refine foldl_preserve
    (fun a => a.config = cfg ∧ NodupSets a ∧ DegreeCap cfg a) _ ?_ ops
    (HNSWIndex.empty cfg) ⟨rfl, ?_, ?_⟩
  · intro acc op hP
    obtain ⟨h1, h2, h3⟩ := hP
    cases op with
    | ins pid vec level =>
        exact insert_inv m cfg acc pid vec level h1 h2 h3
    | rem pid =>
        exact remove_inv cfg acc pid h1 h2 h3
  · intro p2 l2 s hs
    unfold HNSWIndex.empty HNSWIndex.getSet HNSWIndex.getNode at hs
    simp [alGet] at hs
  · intro p2 l2
    unfold HNSWIndex.empty HNSWIndex.setLen HNSWIndex.getSet HNSWIndex.getNode
    simp [alGet]

/-- Claim C4: starting from an empty index, after any sequence of insert and
remove operations (with arbitrary sampled levels and an arbitrary score
function), every node's neighbor set at level 0 has size at most `Mmax0`
and its neighbor set at each level greater than 0 has size at most `M`. -/
theorem hnsw_degree_cap_invariant (m : SimDist) (cfg : HNSWConfig)
    (ops : List HOp) : DegreeCap cfg (runHOps m cfg ops) :=
  (runHOps_inv m cfg ops).2.2

/-- Every map entry of the node map is keyed by the node's own id — true of
every index the engine builds, since `nodes.set(id, node)` and deserialize
both key a node by its id. -/
def WellKeyed (g : HNSWIndex) : Prop := ∀ p ∈ g.nodes, p.1 = p.2.id

/-- On well-keyed indexes the serialize/deserialize pair is the identity:
config, entry point, max level, node order, vectors, layers and neighbor
lists are all reproduced exactly. -/
theorem deserialize_serialize (g : HNSWIndex) (h : WellKeyed g) :
    HNSWIndex.deserialize g.serialize = g := by
  unfold HNSWIndex.serialize HNSWIndex.deserialize
  cases g with
  | mk cfg nodes ep ml =>
      simp only [List.map_map]
      congr 1
      induction nodes with
      | nil => rfl
      | cons p ps ih =>
          have h1 : p.1 = p.2.id := h p (List.mem_cons_self p ps)
          have h2 : ∀ r ∈ ps, r.1 = r.2.id :=
            fun r hr => h r (List.mem_cons_of_mem p hr)
          simp only [List.map_cons]
          rw [ih h2]
          obtain ⟨k, n⟩ := p
          simp only at h1
          subst h1
          cases n
          rfl

/-- Claim C5: for every well-keyed index, `deserialize(serialize(index))`
yields an index whose `search(q, k, ef?)` returns exactly the same scored
results, in the same order, as the original index — for every query vector,
every `k`, every `ef` override and every score function. -/
theorem serialize_roundtrip_search_eq (m : SimDist) (g : HNSWIndex)
    (h : WellKeyed g) (q : List ℚ) (k : Nat) (ef : Option Nat) :
    (HNSWIndex.deserialize g.serialize).search m q k ef = g.search m q k ef := by
  rw [deserialize_serialize g h]

/-- A small index built by the engine itself (three inserts at explicit
levels), used to witness the round-trip theorem. -/
def gRound : HNSWIndex :=
  runHOps cosineUnit DEFAULT_HNSW_CONFIG
    [HOp.ins (PId.num 1) [1, 0] 0,
     HOp.ins (PId.num 2) [3/5, 4/5] 1,
     HOp.ins (PId.num 3) [0, 1] 0]

theorem serialize_roundtrip_search_eq_witness :
    WellKeyed gRound ∧
      (HNSWIndex.deserialize gRound.serialize).search cosineUnit [1, 0] 2 none =
        gRound.search cosineUnit [1, 0] 2 none :=
  ⟨by unfold WellKeyed; decide,
   serialize_roundtrip_search_eq cosineUnit gRound (by unfold WellKeyed; decide) [1, 0] 2 none⟩

/-- A concrete level-0 graph on which the searchLayer loop misbehaves.  All
vectors are unit-norm with rational coordinates, so `cosineUnit` computes
their exact cosine similarities.  Against the query `[1, 0]` the
similarities are: node 1 ↦ 5/13, node 2 ↦ 8/17, node 3 ↦ 3/5, node 4 ↦ 1.
Level-0 edges (bidirectional): 1–2, 1–3, 3–4. -/
def gBug : HNSWIndex :=
  HNSWIndex.deserialize
    ⟨DEFAULT_HNSW_CONFIG, some (PId.num 1), 0,
     [⟨PId.num 1, [5/13, 12/13], 0, [(0, [PId.num 2, PId.num 3])]⟩,
      ⟨PId.num 2, [8/17, 15/17], 0, [(0, [PId.num 1])]⟩,
      ⟨PId.num 3, [3/5, 4/5], 0, [(0, [PId.num 1, PId.num 4])]⟩,
      ⟨PId.num 4, [1, 0], 0, [(0, [PId.num 3])]⟩]⟩

/-- Claim C1 (falsified, code bug): the `searchLayer` loop does not pop the
best (highest-similarity) unvisited candidate — `candidates.pop()` removes
the LAST element of the descending-sorted candidate array, i.e. the
lowest-scoring one, and the break test then fires against it.  On `gBug`
with entry point 1, `ef = 1`, level 0: after the first iteration the
candidate array holds node 3 (score 3/5) and node 2 (score 8/17); the loop
pops node 2, the worse of the two (third conjunct), and breaks, so the
search returns node 3 and never expands node 3's neighbor node 4 even
though node 4 scores a perfect 1 (last conjuncts).  Under the claimed
best-first behavior node 3 would be popped, expanded, and node 4 returned. -/
theorem searchLayer_pops_worst_candidate :
    searchLayer cosineUnit gBug [1, 0] [PId.num 1] 1 0 = [⟨PId.num 3, 3/5⟩] ∧
    slStep cosineUnit gBug [1, 0] 0 1
      ⟨[PId.num 1, PId.num 2, PId.num 3],
       [⟨PId.num 3, 3/5⟩, ⟨PId.num 2, 8/17⟩], [⟨PId.num 3, 3/5⟩]⟩ =
      SLStep.brk ⟨PId.num 2, 8/17⟩ [⟨PId.num 3, 3/5⟩] ∧
    (8 : ℚ)/17 < 3/5 ∧
    HNSWIndex.search cosineUnit gBug [1, 0] 1 (some 1) = [⟨PId.num 3, 3/5⟩] ∧
    cosineUnit.sim [1, 0] [1, 0] = 1 ∧
    gBug.getNode (PId.num 4) =
      some ⟨PId.num 4, [1, 0], 0, [(0, [PId.num 3])]⟩ := by
  refine ⟨by decide, by decide, by decide, by decide, by decide, by decide⟩

/-! ## Shared wire/store value model -/

/-- JSON-like runtime values (payloads, request bodies, filters). -/
inductive JVal where
  | null
  | bool (b : Bool)
  | num (q : ℚ)
  | str (s : String)
  | arr (elems : List JVal)
  | obj (fields : List (String × JVal))

/-- A JavaScript number as it reaches vector validation: either a finite
value or one of the non-finite values rejected by `Number.isFinite`. -/
inductive JsNum where
  | fin (q : ℚ)
  | nan
  | inf
  | ninf
deriving DecidableEq, Repr

/-- `Number.isFinite`. -/
def JsNum.isFinite : JsNum → Bool
  | .fin _ => true
  | _ => false

def JsNum.toQ : JsNum → ℚ
  | .fin q => q
  | _ => 0

/-- A point id as received at the store boundary (runtime value): a string,
a number (integer per the data model), or some other runtime value that
`isValidPointId` rejects. -/
inductive RawId where
  | str (s : String)
  | num (n : Int)
  | other
deriving DecidableEq, Repr

/-- `isValidPointId(id)`: `typeof id === "string" || typeof id === "number"`. -/
def RawId.isValidPointId : RawId → Bool
  | .other => false
  | _ => true

/-- The valid id carried forward (only used after validation). -/
def RawId.toPId : RawId → PId
  | .str s => PId.str s
  | .num n => PId.num n
  | .other => PId.str ""

/-- A point of an upsert request (`PointRecord` as runtime data): the
vector slot is `none` when the request value is not an array, and the
payload slot is `none` when it is absent (`undefined`). -/
structure RawPoint where
  id : RawId
  vector : Option (List JsNum)
  payload : Option JVal

/-- Errors thrown by store operations; `distanceCrash` stands for the
`TypeError` a non-string truthy distance value would raise inside
`normalizeDistance` (surfaced as a 500 by the HTTP server's outer catch). -/
inductive StoreErr where
  | collectionNotFound
  | badSize
  | badDistance
  | distanceCrash
  | badPointId
  | badVector
  | badQueryVector
deriving DecidableEq, Repr

/-- `normalizeDistance(value?)`: falsy values (absent, null, false, 0, the
empty string) default to "Cosine"; a string is accepted iff it lowercases to
"cosine"; any other truthy value would crash on `.toLowerCase()`. -/
def normalizeDistance (v : Option JVal) : Except StoreErr String :=
  match v with
  | none => .ok "Cosine"
  | some JVal.null => .ok "Cosine"
  | some (JVal.bool b) => if b then .error .distanceCrash else .ok "Cosine"
  | some (JVal.num q) => if q = 0 then .ok "Cosine" else .error .distanceCrash
  | some (JVal.str s) =>
      if s = "" then .ok "Cosine"
      else if s.toLower = "cosine" then .ok "Cosine"
      else .error .badDistance
  | some _ => .error .distanceCrash

/-- Vector validation shared by both stores' `upsertPoints`:
`!Array.isArray(v) || v.length !== dimension || v.some(x => !isFinite(x))`. -/
def badVector (dim : Nat) (v : Option (List JsNum)) : Bool :=
  match v with
  | none => true
  | some vs => decide (vs.length ≠ dim) || vs.any (fun x => !x.isFinite)

/-- The validation loop of `upsertPoints`, reporting the first failure. -/
def validatePoints (dim : Nat) : List RawPoint → Option StoreErr
  | [] => none
  | p :: ps =>
    if !p.id.isValidPointId then some .badPointId
    else if badVector dim p.vector then some .badVector
    else validatePoints dim ps

/-- A point as persisted in the jsonl log (one `JSON.stringify` line). -/
structure StoredPoint where
  id : PId
  vector : List ℚ
  payload : JVal

/-- The stored form of a validated point (`{id, vector, payload: payload ?? null}`). -/
def RawPoint.toStored (p : RawPoint) : StoredPoint :=
  ⟨p.id.toPId, (p.vector.getD []).map JsNum.toQ, p.payload.getD JVal.null⟩

/-! ## Log-backed Collection Store (jsonl iteration of store.ts) -/

/-- Collection metadata (`meta.json`): a validated positive integer size and
the distance string. -/
structure CollectionMeta where
  size : Nat
  distance : String
deriving DecidableEq

/-- Durable state of one collection: its metadata, the append-only
`points.jsonl` log (already-parsed lines, in file order), and the optional
`hnsw.json` index snapshot. -/
structure LogColl where
  meta : CollectionMeta
  log : List StoredPoint
  hnswFile : Option HNSWState

/-- The in-memory per-collection cache (`CollectionCache`). -/
structure CollCache where
  index : HNSWIndex
  payloads : List (PId × JVal)
  dirty : Bool

/-- The log-backed `Store`: durable per-collection state plus the index
cache map and the constructor options (`useHnsw ?? true`,
`hnswEfSearch ?? 50`). -/
structure LogStore where
  collections : List (String × LogColl)
  caches : List (String × CollCache)
  useHnsw : Bool
  hnswEfSearch : Nat

/-- A store created on an empty data directory with default options. -/
def LogStore.emptyStore : LogStore := ⟨[], [], true, 50⟩

/-- `getCollection(name)`: metadata, or null when absent. -/
def LogStore.getCollection (st : LogStore) (name : String) : Option CollectionMeta :=
  (alGet st.collections name).map (fun c => c.meta)

/-- `createCollection(name, {size, distance})`: rejects a non-integer or
non-positive size, normalizes the distance, writes `meta.json`, touches the
points file with `appendFile(path, "")` — which creates an empty log only
when the collection is new and leaves an existing log (and the `hnsw.json`
snapshot) in place — and evicts any cached index. -/
def LogStore.createCollection (st : LogStore) (name : String) (size : ℚ)
    (distance : Option JVal) : Except StoreErr (CollectionMeta × LogStore) :=
  if ¬ (size.den = 1 ∧ 0 < size) then .error .badSize
  else
    match normalizeDistance distance with
    | .error e => .error e
    | .ok dist =>
      let meta : CollectionMeta := ⟨size.num.toNat, dist⟩
      let colls :=
        match alGet st.collections name with
        | some c => alSet st.collections name { c with meta := meta }
        | none => st.collections ++ [(name, ⟨meta, [], none⟩)]
      .ok (meta, { st with collections := colls, caches := alErase st.caches name })

/-- `upsertPoints(name, points)`: resolve the collection, validate every
point (id shape, vector length, finiteness) before any mutation, then
append all lines to the log and, only when an index is already cached,
insert each point into it (replacing the vector of an existing id) and
record its payload, marking the cache dirty.  `lvl i` is the level sampled
for the `i`-th inserted point. -/
def LogStore.upsertPoints (m : SimDist) (lvl : Nat → Nat) (st : LogStore)
    (name : String) (pts : List RawPoint) : Except StoreErr LogStore :=
  match alGet st.collections name with
  | none => .error .collectionNotFound
  | some coll =>
    match validatePoints coll.meta.size pts with
    | some e => .error e
    | none =>
      let stored := pts.map RawPoint.toStored
      let coll2 := { coll with log := coll.log ++ stored }
      let caches2 :=
        match alGet st.caches name with
        | none => st.caches
        | some cache =>
          let cache2 := stored.enum.foldl (fun c ip =>
            { c with index := c.index.insert m ip.2.id ip.2.vector (lvl ip.1),
                     payloads := alSet c.payloads ip.2.id ip.2.payload }) cache
          alSet st.caches name { cache2 with dirty := true }
      .ok { st with collections := alSet st.collections name coll2, caches := caches2 }

/-- `loadLatestPoints`: replay the log into an id-keyed map, latest line
winning. -/
def loadLatestPoints (log : List StoredPoint) : List (PId × StoredPoint) :=
  log.foldl (fun mp pt => alSet mp pt.id pt) []

/-- A fresh index built from the replayed points
(`new HNSWIndex({metric: "cosine"})`, the default configuration). -/
def buildFreshIndex (m : SimDist) (lvl : Nat → Nat)
    (points : List (PId × StoredPoint)) : HNSWIndex :=
  points.enum.foldl (fun g ip => g.insert m ip.2.1 ip.2.2.vector (lvl ip.1))
    (HNSWIndex.empty DEFAULT_HNSW_CONFIG)

/-- `ensureIndex(name)`: a cached index is reused as is; otherwise the
persisted snapshot is loaded and kept only when its node count equals the
replayed point count (the staleness check), else a fresh index is built;
payloads always come from the replayed log. -/
def LogStore.ensureIndex (m : SimDist) (lvl : Nat → Nat) (st : LogStore)
    (name : String) : CollCache × LogStore :=
  match alGet st.caches name with
  | some c => (c, st)
  | none =>
    let log := ((alGet st.collections name).map (fun c => c.log)).getD []
    let index0 : Option HNSWIndex :=
      ((alGet st.collections name).bind (fun c => c.hnswFile)).map HNSWIndex.deserialize
    let points := loadLatestPoints log
    let payloads := points.map (fun p => (p.1, p.2.payload))
    let index :=
      match index0 with
      | some ix => if ix.size = points.length then ix else buildFreshIndex m lvl points
      | none => buildFreshIndex m lvl points
    (⟨index, payloads, false⟩,
     { st with caches := st.caches ++ [(name, ⟨index, payloads, false⟩)] })

/-- A query result row `{id, score, payload}`. -/
structure QRes where
  id : PId
  score : ℚ
  payload : JVal

/-- The result loop of `queryWithHnsw`: keep scores at or above the
threshold (payload from the cache, null when missing) and stop as soon as
`limit` results are collected (the stop test runs every iteration). -/
def qFilterLoop (payloads : List (PId × JVal)) (thr : ℚ) (lim : Nat) :
    List SR → List QRes → List QRes
  | [], acc => acc
  | r :: rs, acc =>
    let acc2 := if thr ≤ r.score
      then acc ++ [⟨r.id, r.score, (alGet payloads r.id).getD JVal.null⟩]
      else acc
    if lim ≤ acc2.length then acc2 else qFilterLoop payloads thr lim rs acc2

/-- `queryWithHnsw`: ensure an index, short-circuit the empty index, search
for `max(limit*2, 50)` candidates with the store's `efSearch`, then filter
by threshold up to `limit`. -/
def LogStore.queryWithHnsw (m : SimDist) (lvl : Nat → Nat) (st : LogStore)
    (name : String) (q : List ℚ) (lim : Nat) (thr : ℚ) : List QRes × LogStore :=
  match LogStore.ensureIndex m lvl st name with
  | (cache, st2) =>
    if cache.index.size = 0 then ([], st2)
    else
      let results := cache.index.search m q (max (lim * 2) 50) (some st.hnswEfSearch)
      (qFilterLoop cache.payloads thr lim results [], st2)

/-- `queryBruteForce`: score every latest point with the module-level
`cosineSimilarity` (the same formula as the engine's cosine similarity,
represented by the same score function), keep scores at or above the
threshold, sort descending, take `limit`. -/
def LogStore.queryBruteForce (m : SimDist) (st : LogStore) (name : String)
    (q : List ℚ) (lim : Nat) (thr : ℚ) : List QRes :=
  let points := loadLatestPoints (((alGet st.collections name).map (fun c => c.log)).getD [])
  let scored := points.foldl (fun acc p =>
    let score := m.sim q p.2.vector
    if thr ≤ score then acc ++ [(⟨p.2.id, score, p.2.payload⟩ : QRes)] else acc) []
  (sortDescBy QRes.score scored).take lim

/-- `query(name, vector, {limit, scoreThreshold})`: collection and vector
validation, `limit = max(1, limit ?? 20)`, `scoreThreshold = threshold ?? 0`,
then the HNSW or brute-force path according to `useHnsw`. -/
def LogStore.query (m : SimDist) (lvl : Nat → Nat) (st : LogStore) (name : String)
    (qv : Option (List JsNum)) (lim? : Option Nat) (thr? : Option ℚ) :
    Except StoreErr (List QRes × LogStore) :=
  match alGet st.collections name with
  | none => .error .collectionNotFound
  | some coll =>
    match qv with
    | none => .error .badQueryVector
    | some v =>
      if decide (v.length ≠ coll.meta.size) || v.any (fun x => !x.isFinite) then
        .error .badQueryVector
      else
        let q := v.map JsNum.toQ
        let lim := max 1 (lim?.getD 20)
        let thr := thr?.getD 0
        if st.useHnsw then .ok (LogStore.queryWithHnsw m lvl st name q lim thr)
        else .ok (LogStore.queryBruteForce m st name q lim thr, st)

/-- `persistHnswIndex(name)` (no explicit index argument): write the cached
index to `hnsw.json` and clear the dirty flag; without a cache it does
nothing. -/
def LogStore.persistHnswIndex (st : LogStore) (name : String) : LogStore :=
  match alGet st.caches name with
  | none => st
  | some c =>
    match alGet st.collections name with
    | none => st
    | some coll =>
      { st with
        collections := alSet st.collections name
          { coll with hnswFile := some c.index.serialize },
        caches := alSet st.caches name { c with dirty := false } }

/-! ## SQLite-backed Store (the sqlite-vec iteration of store.ts)

Point ids are stored in TEXT columns keyed by `String(id)` and decoded back
by `Number(point_id)` plus a canonical round-trip check.  In the program
both operations are IEEE-754 double operations; this embedding models only
their exact-decimal integer fragment (`intRepr`, `strToInt?`), where
`String`/`Number` act as exact decimal printing/parsing.  The fragment is
faithful for string ids and for integer ids of magnitude at most 2^53
(doubles hold such integers exactly and print them in plain decimal,
exponent notation starting only at 1e21).  Outside it the model diverges
from the program by construction: JS `String(n)` switches to exponent
notation for |n| ≥ 1e21 and rounds integers above 2^53, and JS `Number(s)`
also accepts non-integer and exponent literals (the stored key "7.5"
decodes to the number 7.5 in the program, a value this PId model cannot
carry).  No theorem below asserts program behavior outside the fragment;
double formatting itself is out of the embedding's reach. -/

/-- Digits of `n`, most significant first, fuelled (the fuel `n + 1` always
suffices). -/
def natReprGo : Nat → Nat → List Char
  | 0, _ => []
  | f + 1, n =>
    if n < 10 then [Nat.digitChar n]
    else natReprGo f (n / 10) ++ [Nat.digitChar (n % 10)]

/-- Exact decimal representation of a natural number: JS `String(n)` on
the fragment n ≤ 2^53 (see the section comment). -/
def natRepr (n : Nat) : String := ⟨natReprGo (n + 1) n⟩

/-- Exact decimal printing of an integer id: JS `String(n)` on the
fragment |n| ≤ 2^53, where the double holds n exactly and prints in plain
decimal; beyond it JS rounds and, from 1e21 on, uses exponent notation,
which this model does not cover. -/
def intRepr (n : Int) : String :=
  if n < 0 then ⟨'-' :: natReprGo (n.natAbs + 1) n.natAbs⟩
  else ⟨natReprGo (n.natAbs + 1) n.natAbs⟩

/-- The numeric value of a decimal digit character. -/
def digitVal? (c : Char) : Option Nat :=
  if '0' ≤ c ∧ c ≤ '9' then some (c.toNat - '0'.toNat) else none

/-- Left-to-right accumulation of decimal digits; any non-digit fails. -/
def parseNatGo : List Char → Nat → Option Nat
  | [], acc => some acc
  | c :: cs, acc =>
    match digitVal? c with
    | some d => parseNatGo cs (acc * 10 + d)
    | none => none

/-- Parse a non-empty all-digit string. -/
def parseNat? (l : List Char) : Option Nat :=
  match l with
  | [] => none
  | _ => parseNatGo l 0

/-- The integer fragment of JS `Number(s)`: an optional minus sign
followed by decimal digits.  The program's `Number` also parses
non-integer, exponent, hex/octal/binary and "Infinity" literals under
double semantics; those outcomes are outside this model (see the section
comment), so `none` here only means "no integer parse", not NaN. -/
def strToInt? (s : String) : Option Int :=
  match s.data with
  | [] => none
  | c :: cs =>
    if c = '-' then (parseNat? cs).map (fun n => -(n : Int))
    else (parseNat? (c :: cs)).map (fun n => (n : Int))

mutual
/-- JS `String(value)` on a JSON value.  Non-integer numbers keep their
rational rendering, an idealization: the claims only ever stringify
integers, strings and whole JSON values of other shapes. -/
def jsToStr : JVal → String
  | .null => "null"
  | .bool b => if b then "true" else "false"
  | .num q => if q.den = 1 then intRepr q.num else toString q
  | .str s => s
  | .arr xs => jsToStrList xs
  | .obj _ => "[object Object]"
/-- `Array.prototype.toString`: elements joined with commas. -/
def jsToStrList : List JVal → String
  | [] => ""
  | [x] => jsToStr x
  | x :: y :: xs => jsToStr x ++ "," ++ jsToStrList (y :: xs)
end

/-- `String(point.id)` for a validated id (`other` never reaches the
stringification, validation having rejected it). -/
def RawId.toStr : RawId → String
  | .str s => s
  | .num n => intRepr n
  | .other => ""

/-- One collection database: the `size` metadata row, the `vectors` vec0
table and the `payloads` table, both TEXT-keyed by point id, in row order
(the `distance` metadata row is always "Cosine" and is omitted). -/
structure SqlColl where
  size : Nat
  vectors : List (String × List ℚ)
  payloads : List (String × Option JVal)

/-- The SQLite `Store`: one database per collection name. -/
structure SqlStore where
  collections : List (String × SqlColl)

/-- A store created on an empty data directory. -/
def SqlStore.emptyStore : SqlStore := ⟨[]⟩

/-- `getCollection(name)`: the stored size, or null when the database file
is absent. -/
def SqlStore.getCollection (st : SqlStore) (name : String) : Option Nat :=
  (alGet st.collections name).map (fun c => c.size)

/-- `deleteCollection(name)`: close and remove the database file. -/
def SqlStore.deleteCollection (st : SqlStore) (name : String) : SqlStore :=
  ⟨alErase st.collections name⟩

/-- `createCollection(name, {size, distance})`: reject a non-integer or
non-positive size, normalize the distance, then delete any existing
collection and create a fresh database with empty `vectors` and `payloads`
tables. -/
def SqlStore.createCollection (st : SqlStore) (name : String) (size : ℚ)
    (distance : Option JVal) : Except StoreErr SqlStore :=
  if ¬ (size.den = 1 ∧ 0 < size) then .error .badSize
  else
    match normalizeDistance distance with
    | .error e => .error e
    | .ok _ =>
      .ok ⟨alErase st.collections name ++ [(name, ⟨size.num.toNat, [], []⟩)]⟩

/-- The id-deletion transaction shared by both branches of `deletePoints`:
for each id string, `DELETE FROM vectors` (its `changes` is 1 exactly when
a row with that key exists) and `DELETE FROM payloads`, accumulating the
vector-row change count. -/
def delIdsLoop : List String →
    Nat × List (String × List ℚ) × List (String × Option JVal) →
    Nat × List (String × List ℚ) × List (String × Option JVal)
  | [], acc => acc
  | s :: rest, (c, vs, ps) =>
    delIdsLoop rest
      (c + (if (alGet vs s).isSome then 1 else 0), alErase vs s, alErase ps s)

/-- `deletePoints(name, pointIds?, filter?)`: a missing collection returns
0 with nothing touched; otherwise the by-id branch runs when `pointIds` is
a non-empty array (each id stringified with `String(id)`), and then the
filter branch scans the payload rows (a NULL or absent payload parses to
`null`) and deletes the matching ids, both branches counting deleted
vector rows. -/
def SqlStore.deletePoints (st : SqlStore) (name : String)
    (ids : Option (List JVal)) (fil : Option (JVal → Bool)) : Nat × SqlStore :=
  match alGet st.collections name with
  | none => (0, st)
  | some coll =>
    let s1 :=
      match ids with
      | some (i :: rest) => delIdsLoop ((i :: rest).map jsToStr) (0, coll.vectors, coll.payloads)
      | _ => (0, coll.vectors, coll.payloads)
    let s2 :=
      match fil with
      | some f =>
        delIdsLoop ((s1.2.2.filter (fun (row : String × Option JVal) => f (row.2.getD JVal.null))).map Prod.fst) s1
      | none => s1
    (s2.1, ⟨alSet st.collections name { coll with vectors := s2.2.1, payloads := s2.2.2 }⟩)

/-- The per-point body of the upsert transaction: delete-then-insert into
the vec0 `vectors` table and `INSERT OR REPLACE` into `payloads` (which
also re-inserts the row at the end of scan order), both keyed by
`String(point.id)`; an `undefined` payload is stored as SQL NULL. -/
def upsertRow (coll : SqlColl) (p : RawPoint) : SqlColl :=
  { coll with
    vectors := alErase coll.vectors p.id.toStr ++ [(p.id.toStr, (p.vector.getD []).map JsNum.toQ)],
    payloads := alErase coll.payloads p.id.toStr ++ [(p.id.toStr, p.payload)] }

/-- `upsertPoints(name, points)`: resolve the collection, validate every
point (id shape, vector length, finiteness) before any write, then run the
transaction; an error leaves the store untouched (no new state is
produced). -/
def SqlStore.upsertPoints (st : SqlStore) (name : String)
    (pts : List RawPoint) : Except StoreErr SqlStore :=
  match alGet st.collections name with
  | none => .error .collectionNotFound
  | some coll =>
    match validatePoints coll.size pts with
    | some e => .error e
    | none => .ok ⟨alSet st.collections name (pts.foldl upsertRow coll)⟩

/-- Insert `x` into a list sorted ascending on `f`, after entries with an
equal or smaller key (stability of the KNN order; SQL tie order is
unspecified, the concrete claims use distinct distances). -/
def insAscBy (f : α → ℚ) (x : α) : List α → List α
  | [] => [x]
  | y :: ys => if f x < f y then x :: y :: ys else y :: insAscBy f x ys

/-- Sort ascending by key (`ORDER BY v.distance ASC`). -/
def sortAscBy (f : α → ℚ) (l : List α) : List α :=
  l.foldl (fun acc x => insAscBy f x acc) []

/-- The integer fragment of the id decode of `query`:
`Number(row.point_id)` with the canonical round-trip check
`String(numId) === row.point_id`, on the keys where those are exact
integer decimal operations.  The program also decodes canonical
non-integer double strings such as "7.5" to numbers; such keys fall to the
string branch here because `PId` has no non-integer numbers (see the
section comment), so equalities about `decodeId` describe the program only
on safe-integer keys and on strings holding no integer parse. -/
def decodeId (s : String) : PId :=
  match strToInt? s with
  | some n => if intRepr n = s then PId.num n else PId.str s
  | none => PId.str s

/-- The result loop of the SQLite `query`: convert each distance to a score
`1 - d`, keep scores at or above the threshold, decode the id, parse the
payload (NULL parses to `null`), and break once `limit` results are held
(the break sits inside the threshold test). -/
def sqlQLoop (thr : ℚ) (lim : Nat) :
    List (String × ℚ × Option JVal) → List QRes → List QRes
  | [], acc => acc
  | (s, d, pl) :: rest, acc =>
    if thr ≤ 1 - d then
      if lim ≤ acc.length + 1 then acc ++ [⟨decodeId s, 1 - d, pl.getD JVal.null⟩]
      else sqlQLoop thr lim rest (acc ++ [⟨decodeId s, 1 - d, pl.getD JVal.null⟩])
    else sqlQLoop thr lim rest acc

/-- `query(name, queryVector, {limit, scoreThreshold})`: collection and
vector validation, `limit = max(1, limit ?? 20)`,
`scoreThreshold = scoreThreshold ?? 0`, then the KNN rows — the
`max(limit*2, 50)` nearest by the metric's distance, payloads LEFT-JOINed —
run through the result loop.  The read changes no state. -/
def SqlStore.query (m : SimDist) (st : SqlStore) (name : String)
    (qv : Option (List JsNum)) (lim? : Option Nat) (thr? : Option ℚ) :
    Except StoreErr (List QRes) :=
  match alGet st.collections name with
  | none => .error .collectionNotFound
  | some coll =>
    if badVector coll.size qv then .error .badQueryVector
    else
      let q := (qv.getD []).map JsNum.toQ
      let lim := max 1 (lim?.getD 20)
      let rows := (sortAscBy (fun r => m.dist q r.2) coll.vectors).take (max (lim * 2) 50)
      .ok (sqlQLoop (thr?.getD 0) lim
        (rows.map (fun r => (r.1, m.dist q r.2, (alGet coll.payloads r.1).join))) [])

/-! ## HTTP wire adapter (the qdrant-http handler over the SQLite store) -/

/-- Plain property access `x.k` on a runtime value: `undefined` unless `x`
is an object holding the key (the keys used here never hit the built-in
properties of primitives or arrays). -/
def jsGet : JVal → String → Option JVal
  | .obj fs, k => alGet fs k
  | _, _ => none

/-- Member access inside a `?.` / `??` chain.  A member whose value is
`null` collapses to `none`: every such read feeds either `?.` or `??`,
both of which treat `null` and `undefined` alike, and the final consumers
(`Number.isFinite`, `normalizeDistance`) make no distinction either. -/
def jsGetNN (v : Option JVal) (k : String) : Option JVal :=
  match v with
  | some (.obj fs) =>
    match alGet fs k with
    | some JVal.null => none
    | o => o
  | _ => none

/-- JS truthiness of a JSON value. -/
def jsTruthy : JVal → Bool
  | .null => false
  | .bool b => b
  | .num q => decide (q ≠ 0)
  | .str s => decide (s ≠ "")
  | .arr _ => true
  | .obj _ => true

/-- `body?.vectors ?? body?.config?.params?.vectors ?? body?.params?.vectors`. -/
def resolveVectors (body : JVal) : Option JVal :=
  jsGetNN (some body) "vectors" <|>
  jsGetNN (jsGetNN (jsGetNN (some body) "config") "params") "vectors" <|>
  jsGetNN (jsGetNN (some body) "params") "vectors"

/-- `vectors?.size ?? vectors?.params?.size ?? body?.vector_size ?? body?.dimension`. -/
def resolveSize (body : JVal) : Option JVal :=
  jsGetNN (resolveVectors body) "size" <|>
  jsGetNN (jsGetNN (resolveVectors body) "params") "size" <|>
  jsGetNN (some body) "vector_size" <|>
  jsGetNN (some body) "dimension"

/-- `vectors?.distance ?? vectors?.params?.distance ?? body?.distance`. -/
def resolveDistance (body : JVal) : Option JVal :=
  jsGetNN (resolveVectors body) "distance" <|>
  jsGetNN (jsGetNN (resolveVectors body) "params") "distance" <|>
  jsGetNN (some body) "distance"

/-- `Number.isFinite(v)` on a runtime value, returning the number: true
only for number-typed values (JSON numbers are always finite). -/
def jvalFiniteNum : Option JVal → Option ℚ
  | some (JVal.num q) => some q
  | _ => none

/-- The `PUT /collections/{name}` handler: resolve the size, reject a
non-finite one with 400, otherwise call `createCollection`, turning a
store error into 400 (the status code is returned; a 400 leaves the store
unchanged). -/
def handlePutCollection (st : SqlStore) (name : String) (body : JVal) :
    Nat × SqlStore :=
  match jvalFiniteNum (resolveSize body) with
  | none => (400, st)
  | some q =>
    match SqlStore.createCollection st name q (resolveDistance body) with
    | .ok st2 => (200, st2)
    | .error _ => (400, st)

/-- A present, finite, positive numeric value, as the spec's size rule
words it. -/
def posFiniteNum : Option JVal → Option ℚ
  | some (JVal.num q) => if 0 < q then some q else none
  | _ => none

/-- The size-resolution rule as the spec words it, to be compared with the
adapter's `resolveSize`: among the keys `vectors.size`,
`vectors.params.size`, `vector_size` and `dimension`, the first one holding
a present, finite, positive value wins. -/
def specResolveSize (body : JVal) : Option ℚ :=
  posFiniteNum (jsGetNN (resolveVectors body) "size") <|>
  posFiniteNum (jsGetNN (jsGetNN (resolveVectors body) "params") "size") <|>
  posFiniteNum (jsGetNN (some body) "vector_size") <|>
  posFiniteNum (jsGetNN (some body) "dimension")

/-- `typeof payload === "object" && payload` (arrays are object-typed and
truthy; `null` is object-typed but falsy). -/
def jsIsObjLike : JVal → Bool
  | .obj _ => true
  | .arr _ => true
  | _ => false

/-- One step of `getNestedValue`: `value[key]` guarded by
`value && typeof value === "object" && key in value`.  Objects hold their
keys; arrays hold `length` and their canonical indices; anything else (or
an absent key) yields `undefined`. -/
def nestedStep (v : Option JVal) (k : String) : Option JVal :=
  match v with
  | some (.obj fs) => alGet fs k
  | some (.arr xs) =>
    if k = "length" then some (JVal.num xs.length)
    else
      match parseNat? k.data with
      | some i => if natRepr i = k then xs.get? i else none
      | none => none
  | _ => none

/-- `getNestedValue(obj, keyPath)`: walk the dot-separated key path,
returning `undefined` as soon as a step fails. -/
def getNestedValue (p : JVal) (keyPath : String) : Option JVal :=
  (keyPath.splitOn ".").foldl nestedStep (some p)

/-- The `filter.must` loop: a condition with truthy `key` and `match` must
find the key path (else the whole filter fails) and, when `match.value` is
present, stringify-compare it; other conditions are skipped.  A truthy
non-string `key` would raise a TypeError inside `keyPath.split`; the model
returns `false` there (no claim reaches that branch). -/
def mustLoop (p : JVal) : List JVal → Bool
  | [] => true
  | cond :: rest =>
    match jsGet cond "key", jsGet cond "match" with
    | some kv, some mv =>
      if jsTruthy kv && jsTruthy mv then
        match kv with
        | .str ks =>
          match getNestedValue p ks with
          | none => false
          | some v =>
            match jsGet mv "value" with
            | some w => if jsToStr v = jsToStr w then mustLoop p rest else false
            | none => mustLoop p rest
        | _ => false
      else mustLoop p rest
    | _, _ => mustLoop p rest

/-- The `filter.should` loop: the first condition whose key path resolves
and stringify-matches `match.value` accepts; none matching rejects.  The
TypeError branch is modelled as in `mustLoop`. -/
def shouldLoop (p : JVal) : List JVal → Bool
  | [] => false
  | cond :: rest =>
    match jsGet cond "key", jsGet cond "match" with
    | some kv, some mv =>
      if jsTruthy kv && jsTruthy mv then
        match kv with
        | .str ks =>
          match getNestedValue p ks, jsGet mv "value" with
          | some v, some w => if jsToStr v = jsToStr w then true else shouldLoop p rest
          | _, _ => shouldLoop p rest
        | _ => false
      else shouldLoop p rest
    | _, _ => shouldLoop p rest

/-- The delete-route `filterFn(payload)`: a payload that is not a non-null
object-typed value never matches; then `must` (all conditions), `should`
(any condition) and the legacy single key/match format, in that order. -/
def filterFn (filter : JVal) (payload : JVal) : Bool :=
  if !jsIsObjLike payload then false
  else
    match jsGet filter "must" with
    | some (.arr conds) => mustLoop payload conds
    | _ =>
      match jsGet filter "should" with
      | some (.arr conds) => shouldLoop payload conds
      | _ =>
        match jsGet filter "key", jsGet filter "match" with
        | some kv, some mv =>
          if jsTruthy kv && jsTruthy mv then
            match kv with
            | .str ks =>
              match getNestedValue payload ks, jsGet mv "value" with
              | some v, some w => decide (jsToStr v = jsToStr w)
              | _, _ => false
            | _ => false
          else false
        | _, _ => false

/-- An HTTP response, reduced to its status code and whether the body
carries `status: "completed"`. -/
structure WireResp where
  status : Nat
  completed : Bool
deriving DecidableEq, Repr

/-- The `POST /collections/{name}/points/delete` handler: a missing
collection short-circuits to 200/"completed" with nothing deleted; a
non-empty `points` array deletes by id; otherwise a truthy `filter`
deletes by `filterFn`; otherwise 400. -/
def handlePointsDelete (st : SqlStore) (name : String) (body : JVal) :
    WireResp × SqlStore :=
  match SqlStore.getCollection st name with
  | none => (⟨200, true⟩, st)
  | some _ =>
    match jsGet body "points" with
    | some (.arr (i :: ids)) =>
      (⟨200, true⟩, (SqlStore.deletePoints st name (some (i :: ids)) none).2)
    | _ =>
      match jsGet body "filter" with
      | some fv =>
        if jsTruthy fv then
          (⟨200, true⟩, (SqlStore.deletePoints st name none (some (filterFn fv))).2)
        else (⟨400, false⟩, st)
      | none => (⟨400, false⟩, st)

/-! ## Claims C6 and C9 -/

/-- C6: for every collection name with no existing collection, deleting
points succeeds with a zero count instead of an error: `Store.deletePoints`
returns 0 leaving the store untouched, and the wire adapter's
`POST /collections/{name}/points/delete` responds 200 with a "completed"
status for every request body. -/
theorem delete_missing_collection_idempotent (st : SqlStore) (name : String)
    (ids : Option (List JVal)) (fil : Option (JVal → Bool)) (body : JVal)
    (h : SqlStore.getCollection st name = none) :
    SqlStore.deletePoints st name ids fil = (0, st) ∧
    handlePointsDelete st name body = (⟨200, true⟩, st) := by
  have halg : alGet st.collections name = none := by
    unfold SqlStore.getCollection at h
    cases halg : alGet st.collections name with
    | none => rfl
    | some c => rw [halg] at h; simp at h
  constructor
  · unfold SqlStore.deletePoints
    rw [halg]
  · unfold handlePointsDelete
    rw [h]

/-- C6 witness: a fresh store has no collection "c", yet the delete
operation returns 0 and the route answers 200/"completed". -/
theorem delete_missing_collection_idempotent_witness :
    SqlStore.deletePoints SqlStore.emptyStore "c" none none = (0, SqlStore.emptyStore) ∧
    handlePointsDelete SqlStore.emptyStore "c" JVal.null =
      (⟨200, true⟩, SqlStore.emptyStore) :=
  delete_missing_collection_idempotent SqlStore.emptyStore "c" none none JVal.null rfl

/-- C9: the delete route's filter predicate with an empty `must` array
matches exactly the points whose payload is a non-null object-typed value
(JS arrays are object-typed and count), a payload of any other shape
matches no filter at all, and consequently a delete-by-filter scan with the
empty-must filter selects exactly the object-payload rows. -/
theorem filter_empty_must_semantics (payload f : JVal)
    (rows : List (String × Option JVal)) :
    (filterFn (JVal.obj [("must", JVal.arr [])]) payload = jsIsObjLike payload) ∧
    (jsIsObjLike payload = false → filterFn f payload = false) ∧
    (rows.filter
        (fun (r : String × Option JVal) =>
          filterFn (JVal.obj [("must", JVal.arr [])]) (r.2.getD JVal.null)) =
      rows.filter (fun (r : String × Option JVal) => jsIsObjLike (r.2.getD JVal.null))) := by
  refine ⟨?_, ?_, ?_⟩
  · cases payload <;> rfl
  · intro h
    unfold filterFn
    rw [h]
    rfl
  · refine List.filter_congr ?_
    intro r _
    cases h : r.2.getD JVal.null <;> rfl

/-- C9 witness: the empty-must filter matches an object payload, and a
string payload matches no filter (here a legacy key/match filter). -/
theorem filter_empty_must_semantics_witness :
    (filterFn (JVal.obj [("must", JVal.arr [])]) (JVal.obj [("a", JVal.num 1)]) = true) ∧
    (filterFn (JVal.obj [("key", JVal.str "a"), ("match", JVal.obj [("value", JVal.str "b")])])
      (JVal.str "x") = false) :=
  ⟨(filter_empty_must_semantics (JVal.obj [("a", JVal.num 1)]) JVal.null []).1,
   (filter_empty_must_semantics (JVal.str "x")
      (JVal.obj [("key", JVal.str "a"), ("match", JVal.obj [("value", JVal.str "b")])]) []).2.1 rfl⟩

/-! ## Claim C3 -/

/-- A batch containing a point with an invalid id or a bad vector fails the
shared validation loop. -/
theorem validatePoints_isSome_of_bad (dim : Nat) (pts : List RawPoint)
    (p : RawPoint) (hp : p ∈ pts)
    (hbad : p.id.isValidPointId = false ∨ badVector dim p.vector = true) :
    ∃ e, validatePoints dim pts = some e := by
  induction pts with
  | nil => cases hp
  | cons q qs ih =>
    unfold validatePoints
    by_cases h1 : q.id.isValidPointId
    · rw [h1]
      simp only [Bool.not_true, Bool.false_eq_true, if_false]
      by_cases h2 : badVector dim q.vector
      · rw [if_pos h2]; exact ⟨.badVector, rfl⟩
      · rw [if_neg h2]
        rcases List.mem_cons.mp hp with rfl | hmem
        · rcases hbad with hb | hb
          · rw [h1] at hb; cases hb
          · exact absurd hb h2
        · exact ih hmem
    · rw [Bool.not_eq_true] at h1
      rw [h1]
      exact ⟨.badPointId, rfl⟩

/-- C3: `upsertPoints` of both stores reports a validation error — and, an
error producing no new state in the model, leaves the stored point set
unchanged — whenever the collection is missing, or some point of the batch
has a non-string/non-number id, or a vector that is not an array of exactly
the collection dimension of finite entries. -/
theorem upsert_validation_error_atomic (m : SimDist) (lvl : Nat → Nat)
    (stL : LogStore) (stS : SqlStore) (name : String) (pts : List RawPoint) :
    (alGet stL.collections name = none →
      LogStore.upsertPoints m lvl stL name pts = .error .collectionNotFound) ∧
    (∀ coll, alGet stL.collections name = some coll →
      ∀ p ∈ pts, (p.id.isValidPointId = false ∨ badVector coll.meta.size p.vector = true) →
      ∃ e, LogStore.upsertPoints m lvl stL name pts = .error e) ∧
    (alGet stS.collections name = none →
      SqlStore.upsertPoints stS name pts = .error .collectionNotFound) ∧
    (∀ coll, alGet stS.collections name = some coll →
      ∀ p ∈ pts, (p.id.isValidPointId = false ∨ badVector coll.size p.vector = true) →
      ∃ e, SqlStore.upsertPoints stS name pts = .error e) := by
  refine ⟨?_, ?_, ?_, ?_⟩
  · intro h
    unfold LogStore.upsertPoints
    rw [h]
  · intro coll hcoll p hp hbad
    obtain ⟨e, he⟩ := validatePoints_isSome_of_bad coll.meta.size pts p hp hbad
    refine ⟨e, ?_⟩
    unfold LogStore.upsertPoints
    rw [hcoll]
    dsimp only
    rw [he]
  · intro h
    unfold SqlStore.upsertPoints
    rw [h]
  · intro coll hcoll p hp hbad
    obtain ⟨e, he⟩ := validatePoints_isSome_of_bad coll.size pts p hp hbad
    refine ⟨e, ?_⟩
    unfold SqlStore.upsertPoints
    rw [hcoll]
    dsimp only
    rw [he]

/-- C3 witness: a fresh store rejects an upsert into the missing collection
"c" (both stores), and a store holding "c" rejects a batch with an invalid
id. -/
theorem upsert_validation_error_atomic_witness :
    (LogStore.upsertPoints cosineUnit (fun _ => 0) LogStore.emptyStore "c" [] =
      .error .collectionNotFound) ∧
    (SqlStore.upsertPoints SqlStore.emptyStore "c" [] = .error .collectionNotFound) ∧
    (∃ e, SqlStore.upsertPoints (⟨[("c", ⟨2, [], []⟩)]⟩ : SqlStore) "c"
      [⟨RawId.other, none, none⟩] = .error e) :=
  ⟨(upsert_validation_error_atomic cosineUnit (fun _ => 0) LogStore.emptyStore
      SqlStore.emptyStore "c" []).1 rfl,
   (upsert_validation_error_atomic cosineUnit (fun _ => 0) LogStore.emptyStore
      SqlStore.emptyStore "c" []).2.2.1 rfl,
   (upsert_validation_error_atomic cosineUnit (fun _ => 0) LogStore.emptyStore
      (⟨[("c", ⟨2, [], []⟩)]⟩ : SqlStore) "c" [⟨RawId.other, none, none⟩]).2.2.2
      ⟨2, [], []⟩ rfl ⟨RawId.other, none, none⟩ (List.Mem.head _) (Or.inl rfl)⟩

/-! ## Claim C7 -/

/-- `Number.isFinite` holds of a resolved value exactly when it is a
number. -/
theorem jvalFiniteNum_eq_some (o : Option JVal) (q : ℚ) :
    jvalFiniteNum o = some q ↔ o = some (JVal.num q) := by
  match o with
  | none => simp [jvalFiniteNum]
  | some JVal.null => simp [jvalFiniteNum]
  | some (JVal.bool b) => simp [jvalFiniteNum]
  | some (JVal.num r) => simp [jvalFiniteNum]
  | some (JVal.str s) => simp [jvalFiniteNum]
  | some (JVal.arr xs) => simp [jvalFiniteNum]
  | some (JVal.obj fs) => simp [jvalFiniteNum]

/-- The request body on which the code and the spec's size rule part ways:
`vectors.size` present but 0, `dimension` present and positive. -/
def bodyC7 : JVal :=
  JVal.obj [("vectors", JVal.obj [("size", JVal.num 0)]), ("dimension", JVal.num 5)]

/-- C7 counterexample: on `bodyC7` the spec's rule ("first present, finite,
positive value") resolves the size to 5 via `dimension` and would create
the collection, but the adapter's nullish chain takes the non-positive
`vectors.size` first and the request is rejected 400 with no collection
created. -/
theorem put_collection_size_not_first_positive :
    specResolveSize bodyC7 = some 5 ∧
    handlePutCollection SqlStore.emptyStore "c" bodyC7 = (400, SqlStore.emptyStore) :=
  ⟨by decide, rfl⟩

/-- C7 amended: the adapter resolves the size as the first present,
non-nullish value among `vectors.size`, `vectors.params.size`,
`vector_size`, `dimension` — with no finiteness or positivity test at
resolution, so a present non-positive or non-numeric value masks a later
positive one.  The request succeeds (200) exactly when that value is a
number whose value is a positive integer and the resolved distance
normalizes; every other outcome is a 400 that leaves the store unchanged. -/
theorem put_collection_size_resolution (st : SqlStore) (name : String) (body : JVal) :
    ((handlePutCollection st name body).1 = 200 ↔
      (∃ q : ℚ, resolveSize body = some (JVal.num q) ∧ q.den = 1 ∧ 0 < q ∧
        ∃ d, normalizeDistance (resolveDistance body) = .ok d)) ∧
    ((handlePutCollection st name body).1 ≠ 200 →
      handlePutCollection st name body = (400, st)) := by
  cases hj : jvalFiniteNum (resolveSize body) with
  | none =>
    refine ⟨⟨?_, ?_⟩, ?_⟩
    · intro h
      unfold handlePutCollection at h
      rw [hj] at h
      cases h
    · rintro ⟨q, hq, -⟩
      rw [(jvalFiniteNum_eq_some _ q).mpr hq] at hj
      cases hj
    · intro _
      unfold handlePutCollection
      rw [hj]
  | some q =>
    have hq : resolveSize body = some (JVal.num q) := (jvalFiniteNum_eq_some _ q).mp hj
    have huniq : ∀ q2 : ℚ, resolveSize body = some (JVal.num q2) → q2 = q := by
      intro q2 h2
      rw [hq] at h2
      cases h2
      rfl
    by_cases hval : q.den = 1 ∧ 0 < q
    · cases hd : normalizeDistance (resolveDistance body) with
      | error e =>
        have h400 : handlePutCollection st name body = (400, st) := by
          unfold handlePutCollection
          rw [hj]
          dsimp only
          unfold SqlStore.createCollection
          rw [if_neg (not_not_intro hval), hd]
        refine ⟨⟨?_, ?_⟩, fun _ => h400⟩
        · intro h
          rw [h400] at h
          cases h
        · rintro ⟨q2, hq2, -, -, d, hdd⟩
          cases hdd
      | ok d =>
        have h200 : (handlePutCollection st name body).1 = 200 := by
          unfold handlePutCollection
          rw [hj]
          dsimp only
          unfold SqlStore.createCollection
          rw [if_neg (not_not_intro hval), hd]
        refine ⟨⟨?_, ?_⟩, ?_⟩
        · intro _
          exact ⟨q, hq, hval.1, hval.2, d, rfl⟩
        · intro _
          exact h200
        · intro h
          exact absurd h200 h
    · have h400 : handlePutCollection st name body = (400, st) := by
        unfold handlePutCollection
        rw [hj]
        dsimp only
        unfold SqlStore.createCollection
        rw [if_pos hval]
      refine ⟨⟨?_, ?_⟩, fun _ => h400⟩
      · intro h
        rw [h400] at h
        cases h
      · rintro ⟨q2, hq2, hden, hpos, -⟩
        cases huniq q2 hq2
        exact absurd ⟨hden, hpos⟩ hval

/-- C7 amended witness: a body carrying only a positive integer `dimension`
is accepted. -/
theorem put_collection_size_resolution_witness :
    (handlePutCollection SqlStore.emptyStore "c" (JVal.obj [("dimension", JVal.num 3)])).1 = 200 :=
  (put_collection_size_resolution SqlStore.emptyStore "c"
      (JVal.obj [("dimension", JVal.num 3)])).1.mpr
    ⟨3, rfl, by decide, by decide, "Cosine", rfl⟩

/-! ## Claim C2 -/

/-- A degenerate level oracle: every insert samples level 0. -/
def lvl0 : Nat → Nat := fun _ => 0

/-- The C2 run on the log-backed store: create "c" (dimension 1), upsert
point 1 with vector [1], create "c" again, then query [1] with defaults;
the claim expects `some []`. -/
def c2final : Option (List (PId × ℚ)) :=
  (LogStore.createCollection LogStore.emptyStore "c" 1 none).toOption.bind (fun r1 =>
    (LogStore.upsertPoints cosineUnit lvl0 r1.2 "c"
        [⟨RawId.num 1, some [JsNum.fin 1], none⟩]).toOption.bind (fun st2 =>
      (LogStore.createCollection st2 "c" 1 none).toOption.bind (fun r3 =>
        (LogStore.query cosineUnit lvl0 r3.2 "c" (some [JsNum.fin 1]) none none).toOption.map
          (fun qr => qr.1.map (fun r => (r.id, r.score))))))

/-- C2 counterexample: on the log-backed store, re-creating a collection
does not drop its points — `createCollection` only rewrites `meta.json`,
touches the points file with an empty append and evicts the cache — so the
query after the re-create still returns the point upserted before it
(score 1), where the claim demands an empty result. -/
theorem recreate_keeps_old_points : c2final = some [(PId.num 1, 1)] := by decide

/-- C2 amended: re-creating an existing collection destroys its points only
on the SQLite store (the collection comes back with empty `vectors` and
`payloads` tables); on the log-backed store `createCollection` keeps the
existing points log and `hnsw.json` snapshot, replacing only the metadata
and evicting the cached index, so earlier points remain observable. -/
theorem recreate_semantics (stS : SqlStore) (stL : LogStore) (name : String)
    (size : ℚ) (dist : Option JVal) :
    (∀ stS', SqlStore.createCollection stS name size dist = .ok stS' →
      alGet stS'.collections name = some ⟨size.num.toNat, [], []⟩) ∧
    (∀ meta stL', LogStore.createCollection stL name size dist = .ok (meta, stL') →
      ((alGet stL'.collections name).map LogColl.log =
          some (((alGet stL.collections name).map LogColl.log).getD []) ∧
        (alGet stL'.collections name).bind LogColl.hnswFile =
          (alGet stL.collections name).bind LogColl.hnswFile ∧
        alGet stL'.caches name = none)) := by
  constructor
  · intro stS' h
    unfold SqlStore.createCollection at h
    by_cases hval : (size.den = 1 ∧ 0 < size)
    · rw [if_neg (not_not_intro hval)] at h
      cases hd : normalizeDistance dist with
      | error e => rw [hd] at h; cases h
      | ok d2 =>
        rw [hd] at h
        dsimp only at h
        cases h
        rw [alGet_append_single, alGet_alErase, if_pos rfl]
        simp
    · rw [if_pos hval] at h
      cases h
  · intro meta stL' h
    unfold LogStore.createCollection at h
    by_cases hval : (size.den = 1 ∧ 0 < size)
    · rw [if_neg (not_not_intro hval)] at h
      cases hd : normalizeDistance dist with
      | error e => rw [hd] at h; cases h
      | ok d2 =>
        rw [hd] at h
        dsimp only at h
        cases halg : alGet stL.collections name with
        | some c =>
          rw [halg] at h
          dsimp only at h
          cases h
          refine ⟨?_, ?_, ?_⟩
          · rw [alGet_alSet, if_pos rfl]
            rfl
          · rw [alGet_alSet, if_pos rfl]
            rfl
          · rw [alGet_alErase, if_pos rfl]
        | none =>
          rw [halg] at h
          dsimp only at h
          cases h
          refine ⟨?_, ?_, ?_⟩
          · rw [alGet_append_single, halg]
            simp
          · rw [alGet_append_single, halg]
            simp
          · rw [alGet_alErase, if_pos rfl]
    · rw [if_pos hval] at h
      cases h

/-- A SQLite store already holding collection "c" with one point. -/
def stSW2 : SqlStore := ⟨[("c", ⟨1, [("1", [1])], [("1", none)]⟩)]⟩

/-- A log store already holding collection "c" with one logged point. -/
def stLW2 : LogStore :=
  ⟨[("c", ⟨⟨1, "Cosine"⟩, [⟨PId.num 1, [1], JVal.null⟩], none⟩)], [], true, 50⟩

/-- C2 amended witness: re-creating "c" empties the SQLite collection but
keeps the log store's point log. -/
theorem recreate_semantics_witness :
    (alGet (SqlStore.mk [("c", ⟨1, [], []⟩)]).collections "c" = some ⟨1, [], []⟩) ∧
    ((alGet (LogStore.mk [("c", ⟨⟨1, "Cosine"⟩, [⟨PId.num 1, [1], JVal.null⟩], none⟩)]
        [] true 50).collections "c").map LogColl.log =
      some [⟨PId.num 1, [1], JVal.null⟩]) :=
  ⟨(recreate_semantics stSW2 stLW2 "c" 1 none).1 ⟨[("c", ⟨1, [], []⟩)]⟩ rfl,
   ((recreate_semantics stSW2 stLW2 "c" 1 none).2 ⟨1, "Cosine"⟩
      (LogStore.mk [("c", ⟨⟨1, "Cosine"⟩, [⟨PId.num 1, [1], JVal.null⟩], none⟩)] [] true 50)
      rfl).1⟩

/-! ## Claim C8 -/

/-- Every result appended by the HNSW query's filter loop passed the
threshold test. -/
theorem qFilterLoop_score (payloads : List (PId × JVal)) (thr : ℚ) (lim : Nat)
    (rs : List SR) (acc : List QRes) (hacc : ∀ r ∈ acc, thr ≤ r.score) :
    ∀ r ∈ qFilterLoop payloads thr lim rs acc, thr ≤ r.score := by
  induction rs generalizing acc with
  | nil => exact hacc
  | cons x rest ih =>
    intro r hr
    simp only [qFilterLoop] at hr
    by_cases hx : thr ≤ x.score
    · have happ : ∀ r2 ∈ acc ++ [⟨x.id, x.score, (alGet payloads x.id).getD JVal.null⟩],
          thr ≤ r2.score := by
        intro r2 hr2
        rcases List.mem_append.mp hr2 with h | h
        · exact hacc r2 h
        · rw [List.mem_singleton] at h
          subst h
          exact hx
      rw [if_pos hx] at hr
      split at hr
      · exact happ r hr
      · exact ih _ happ r hr
    · rw [if_neg hx] at hr
      split at hr
      · exact hacc r hr
      · exact ih _ hacc r hr

/-- Every result appended by the SQLite query's result loop passed the
threshold test. -/
theorem sqlQLoop_score (thr : ℚ) (lim : Nat)
    (rows : List (String × ℚ × Option JVal)) (acc : List QRes)
    (hacc : ∀ r ∈ acc, thr ≤ r.score) :
    ∀ r ∈ sqlQLoop thr lim rows acc, thr ≤ r.score := by
  induction rows generalizing acc with
  | nil => exact hacc
  | cons x rest ih =>
    obtain ⟨s, d, pl⟩ := x
    have hnew : thr ≤ 1 - d → ∀ r2 ∈ acc ++ [(⟨decodeId s, 1 - d, pl.getD JVal.null⟩ : QRes)],
        thr ≤ r2.score := by
      intro h1 r2 hr2
      rcases List.mem_append.mp hr2 with h | h
      · exact hacc r2 h
      · rw [List.mem_singleton] at h
        subst h
        exact h1
    intro r hr
    simp only [sqlQLoop] at hr
    by_cases h1 : thr ≤ 1 - d
    · rw [if_pos h1] at hr
      by_cases h2 : lim ≤ acc.length + 1
      · rw [if_pos h2] at hr
        exact hnew h1 r hr
      · rw [if_neg h2] at hr
        exact ih _ (hnew h1) r hr
    · rw [if_neg h1] at hr
      exact ih _ hacc r hr

/-- Provenance of the brute-force scoring fold: every produced row comes
from a replayed point, carries that point's exact similarity as its score,
and passed the threshold. -/
theorem bruteFold_mem (m : SimDist) (q : List ℚ) (thr : ℚ)
    (pts : List (PId × StoredPoint)) (acc : List QRes) (r : QRes)
    (hr : r ∈ pts.foldl (fun acc p =>
      if thr ≤ m.sim q p.2.vector
      then acc ++ [(⟨p.2.id, m.sim q p.2.vector, p.2.payload⟩ : QRes)]
      else acc) acc) :
    r ∈ acc ∨ ∃ p, p ∈ pts ∧ r = ⟨p.2.id, m.sim q p.2.vector, p.2.payload⟩ ∧
      thr ≤ m.sim q p.2.vector := by
  induction pts generalizing acc with
  | nil => exact Or.inl hr
  | cons x rest ih =>
    rw [List.foldl_cons] at hr
    rcases ih _ hr with h | ⟨p, hp, he, hs⟩
    · by_cases hx : thr ≤ m.sim q x.2.vector
      · rw [if_pos hx] at h
        rcases List.mem_append.mp h with h2 | h2
        · exact Or.inl h2
        · rw [List.mem_singleton] at h2
          exact Or.inr ⟨x, List.mem_cons_self x rest, h2, hx⟩
      · rw [if_neg hx] at h
        exact Or.inl h
    · exact Or.inr ⟨p, List.mem_cons_of_mem x hp, he, hs⟩

/-- Every brute-force query result scores at or above the threshold and is
the exact similarity of a latest replayed point. -/
theorem queryBruteForce_mem (m : SimDist) (st : LogStore) (name : String)
    (q : List ℚ) (lim : Nat) (thr : ℚ) (r : QRes)
    (hr : r ∈ LogStore.queryBruteForce m st name q lim thr) :
    thr ≤ r.score ∧
    ∃ p, p ∈ loadLatestPoints (((alGet st.collections name).map (fun c => c.log)).getD []) ∧
      r = ⟨p.2.id, m.sim q p.2.vector, p.2.payload⟩ := by
  simp only [LogStore.queryBruteForce] at hr
  have hr2 := List.mem_of_mem_take hr
  rw [mem_sortDescBy] at hr2
  rcases bruteFold_mem m q thr _ [] r hr2 with h | ⟨p, hp, he, hs⟩
  · cases h
  · subst he
    exact ⟨hs, p, hp, rfl⟩

/-- Every result of the HNSW query path passed the threshold test. -/
theorem queryWithHnsw_score (m : SimDist) (lvl : Nat → Nat) (st : LogStore)
    (name : String) (q : List ℚ) (lim : Nat) (thr : ℚ) :
    ∀ r ∈ (LogStore.queryWithHnsw m lvl st name q lim thr).1, thr ≤ r.score := by
  unfold LogStore.queryWithHnsw
  rcases hE : LogStore.ensureIndex m lvl st name with ⟨cache, st2⟩
  dsimp only
  by_cases hz : cache.index.size = 0
  · rw [if_pos hz]
    intro r hr
    cases hr
  · rw [if_neg hz]
    intro r hr
    exact qFilterLoop_score cache.payloads thr lim _ []
      (fun r2 hr2 => absurd hr2 (List.not_mem_nil r2)) r hr

/-- C8 amended: with no scoreThreshold supplied both stores apply a default
threshold of 0 — every returned result has score ≥ 0 — and under the
brute-force path the score is the true similarity of the latest stored
point, so a point with strictly negative similarity is never returned
there.  (Under the HNSW path the score may come from a stale equal-size
snapshot vector; the counterexample exploits exactly that.) -/
theorem query_default_threshold_nonneg (m : SimDist) (lvl : Nat → Nat)
    (stL : LogStore) (stS : SqlStore) (name : String) (qv : Option (List JsNum))
    (lim? : Option Nat) :
    (∀ rs stL', LogStore.query m lvl stL name qv lim? none = .ok (rs, stL') →
      ∀ r ∈ rs, 0 ≤ r.score) ∧
    (∀ rs, SqlStore.query m stS name qv lim? none = .ok rs → ∀ r ∈ rs, 0 ≤ r.score) ∧
    (∀ (q : List ℚ) (lim : Nat) (thr : ℚ) (r : QRes),
      r ∈ LogStore.queryBruteForce m stL name q lim thr →
      thr ≤ r.score ∧
      ∃ p, p ∈ loadLatestPoints (((alGet stL.collections name).map (fun c => c.log)).getD []) ∧
        r = ⟨p.2.id, m.sim q p.2.vector, p.2.payload⟩) := by
  refine ⟨?_, ?_, ?_⟩
  · intro rs stL' h
    unfold LogStore.query at h
    cases halg : alGet stL.collections name with
    | none => rw [halg] at h; cases h
    | some coll =>
      rw [halg] at h
      dsimp only at h
      cases qv with
      | none => dsimp only at h; cases h
      | some v =>
        dsimp only at h
        by_cases hbadv : (decide (v.length ≠ coll.meta.size) || v.any (fun x => !x.isFinite)) = true
        · rw [if_pos hbadv] at h
          cases h
        · rw [if_neg hbadv] at h
          by_cases hu : stL.useHnsw
          · rw [if_pos hu] at h
            injection h with h2
            have hrs := congrArg Prod.fst h2
            dsimp only at hrs
            rw [← hrs]
            exact queryWithHnsw_score m lvl stL name _ _ 0
          · rw [if_neg hu] at h
            injection h with h2
            have hrs := congrArg Prod.fst h2
            dsimp only at hrs
            rw [← hrs]
            intro r hr
            exact (queryBruteForce_mem m stL name _ _ 0 r hr).1
  · intro rs h
    unfold SqlStore.query at h
    cases halg : alGet stS.collections name with
    | none => rw [halg] at h; cases h
    | some coll =>
      rw [halg] at h
      dsimp only at h
      by_cases hb : badVector coll.size qv = true
      · rw [if_pos hb] at h
        cases h
      · rw [if_neg hb] at h
        injection h with h2
        rw [← h2]
        exact sqlQLoop_score 0 _ _ []
          (fun r2 hr2 => absurd hr2 (List.not_mem_nil r2))
  · intro q lim thr r hr
    exact queryBruteForce_mem m stL name q lim thr r hr

/-- The C8 run: create "c", upsert point 1 with vector [1], query (building
the cached index), persist the index snapshot, upsert point 1 again with
vector [-1] (same point count), re-create "c" (evicting the cache, keeping
log and snapshot), then query [1] with defaults; paired with the latest
stored vector of point 1. -/
def c8final : Option (List (PId × ℚ) × Option (List ℚ)) :=
  (LogStore.createCollection LogStore.emptyStore "c" 1 none).toOption.bind (fun r1 =>
    (LogStore.upsertPoints cosineUnit lvl0 r1.2 "c"
        [⟨RawId.num 1, some [JsNum.fin 1], none⟩]).toOption.bind (fun st2 =>
      (LogStore.query cosineUnit lvl0 st2 "c" (some [JsNum.fin 1]) none none).toOption.bind (fun q1 =>
        (LogStore.upsertPoints cosineUnit lvl0 (LogStore.persistHnswIndex q1.2 "c") "c"
            [⟨RawId.num 1, some [JsNum.fin (-1)], none⟩]).toOption.bind (fun st5 =>
          (LogStore.createCollection st5 "c" 1 none).toOption.bind (fun r6 =>
            (LogStore.query cosineUnit lvl0 r6.2 "c" (some [JsNum.fin 1]) none none).toOption.map
              (fun qr =>
                (qr.1.map (fun r => (r.id, r.score)),
                 (alGet (loadLatestPoints (((alGet r6.2.collections "c").map
                     (fun c => c.log)).getD [])) (PId.num 1)).map StoredPoint.vector)))))))

/-- C8 counterexample: the run ends with a query that supplies no
scoreThreshold yet returns point 1 with score 1 — the score read off the
stale equal-size snapshot — although the latest stored vector of point 1 is
[-1], whose cosine similarity to the query [1] is -1 < 0.  The claim says
such a point is never returned. -/
theorem default_threshold_stale_snapshot :
    c8final = some ([(PId.num 1, 1)], some [-1]) ∧ cosineUnit.sim [1] [-1] < 0 := by
  constructor
  · decide
  · decide

/-- C8 amended witness: both the log store's HNSW path and the SQLite store
return point 1 with score 1 ≥ 0 on a concrete one-point collection. -/
theorem query_default_threshold_nonneg_witness :
    ((0:ℚ) ≤ (QRes.mk (PId.num 1) 1 JVal.null).score) ∧
    ((0:ℚ) ≤ (QRes.mk (PId.num 1) 1 JVal.null).score) :=
  ⟨(query_default_threshold_nonneg cosineUnit lvl0 stLW2
        (⟨[("c", ⟨1, [("1", [1])], []⟩)]⟩ : SqlStore) "c" (some [JsNum.fin 1]) none).1
      (LogStore.queryWithHnsw cosineUnit lvl0 stLW2 "c" [1] 20 0).1
      (LogStore.queryWithHnsw cosineUnit lvl0 stLW2 "c" [1] 20 0).2
      rfl (QRes.mk (PId.num 1) 1 JVal.null) (List.Mem.head _),
   (query_default_threshold_nonneg cosineUnit lvl0 stLW2
        (⟨[("c", ⟨1, [("1", [1])], []⟩)]⟩ : SqlStore) "c" (some [JsNum.fin 1]) none).2.1
      [QRes.mk (PId.num 1) 1 JVal.null] rfl
      (QRes.mk (PId.num 1) 1 JVal.null) (List.Mem.head _)⟩

/-! ## Decimal id-keying: the provable exact-decimal fragment -/

/-- Digit characters decode to their value. -/
theorem digitVal?_digitChar (n : Nat) (h : n < 10) :
    digitVal? (Nat.digitChar n) = some n := by
  interval_cases n <;> decide

theorem parseNatGo_append (l1 l2 : List Char) (acc : Nat) :
    parseNatGo (l1 ++ l2) acc =
      match parseNatGo l1 acc with
      | some m => parseNatGo l2 m
      | none => none := by
  induction l1 generalizing acc with
  | nil => rfl
  | cons c cs ih =>
    rw [List.cons_append]
    cases hd : digitVal? c with
    | some d =>
      have hL : parseNatGo (c :: (cs ++ l2)) acc = parseNatGo (cs ++ l2) (acc * 10 + d) := by
        show (match digitVal? c with
              | some d => parseNatGo (cs ++ l2) (acc * 10 + d)
              | none => none) = _
        rw [hd]
      have hR : parseNatGo (c :: cs) acc = parseNatGo cs (acc * 10 + d) := by
        show (match digitVal? c with
              | some d => parseNatGo cs (acc * 10 + d)
              | none => none) = _
        rw [hd]
      rw [hL, hR, ih]
    | none =>
      have hL : parseNatGo (c :: (cs ++ l2)) acc = none := by
        show (match digitVal? c with
              | some d => parseNatGo (cs ++ l2) (acc * 10 + d)
              | none => none) = _
        rw [hd]
      have hR : parseNatGo (c :: cs) acc = none := by
        show (match digitVal? c with
              | some d => parseNatGo cs (acc * 10 + d)
              | none => none) = _
        rw [hd]
      rw [hL, hR]

theorem natReprGo_spec (fuel n : Nat) (h : n < fuel) :
    natReprGo fuel n ≠ [] ∧
    (∀ c ∈ natReprGo fuel n, (digitVal? c).isSome = true) ∧
    (∀ acc, parseNatGo (natReprGo fuel n) acc =
      some (acc * 10 ^ (natReprGo fuel n).length + n)) := by
  induction fuel generalizing n with
  | zero => omega
  | succ f ih =>
    by_cases h10 : n < 10
    · refine ⟨?_, ?_, ?_⟩
      · simp [natReprGo, h10]
      · intro c hc
        simp only [natReprGo, if_pos h10, List.mem_singleton] at hc
        subst hc
        rw [digitVal?_digitChar n h10]
        rfl
      · intro acc
        simp only [natReprGo, if_pos h10]
        show (match digitVal? (Nat.digitChar n) with
              | some d => parseNatGo [] (acc * 10 + d)
              | none => none) = _
        rw [digitVal?_digitChar n h10]
        show some (acc * 10 + n) = some (acc * 10 ^ ([Nat.digitChar n]).length + n)
        rw [List.length_singleton, pow_one]
    · have hdiv : n / 10 < f := by
        have h1 : n / 10 < n := Nat.div_lt_self (by omega) (by omega)
        omega
      obtain ⟨hne, hdig, hparse⟩ := ih (n / 10) hdiv
      have hunf : natReprGo (f + 1) n = natReprGo f (n / 10) ++ [Nat.digitChar (n % 10)] := by
        simp [natReprGo, h10]
      refine ⟨?_, ?_, ?_⟩
      · rw [hunf]
        simp
      · intro c hc
        rw [hunf, List.mem_append] at hc
        rcases hc with hc | hc
        · exact hdig c hc
        · rw [List.mem_singleton] at hc
          subst hc
          rw [digitVal?_digitChar (n % 10) (Nat.mod_lt n (by omega))]
          rfl
      · intro acc
        rw [hunf, parseNatGo_append, hparse acc]
        show parseNatGo [Nat.digitChar (n % 10)] (acc * 10 ^ (natReprGo f (n / 10)).length + n / 10) = _
        show (match digitVal? (Nat.digitChar (n % 10)) with
              | some d => parseNatGo [] ((acc * 10 ^ (natReprGo f (n / 10)).length + n / 10) * 10 + d)
              | none => none) = _
        rw [digitVal?_digitChar (n % 10) (Nat.mod_lt n (by omega))]
        show some ((acc * 10 ^ (natReprGo f (n / 10)).length + n / 10) * 10 + n % 10) = _
        rw [List.length_append, List.length_singleton, pow_succ]
        congr 1
        have hmod : n / 10 * 10 + n % 10 = n := by omega
        have hassoc : acc * (10 ^ (natReprGo f (n / 10)).length * 10) =
            acc * 10 ^ (natReprGo f (n / 10)).length * 10 := by ring
        rw [hassoc]
        omega

theorem strToInt?_intRepr (n : Int) : strToInt? (intRepr n) = some n := by
  obtain ⟨hne, hdig, hparse⟩ := natReprGo_spec (n.natAbs + 1) n.natAbs (Nat.lt_succ_self _)
  have hp : parseNat? (natReprGo (n.natAbs + 1) n.natAbs) = some n.natAbs := by
    cases hl : natReprGo (n.natAbs + 1) n.natAbs with
    | nil => exact absurd hl hne
    | cons c cs =>
      show parseNatGo (c :: cs) 0 = some n.natAbs
      rw [← hl, hparse 0]
      simp
  by_cases hn : n < 0
  · rw [intRepr, if_pos hn]
    show (if ('-' : Char) = '-' then
            (parseNat? (natReprGo (n.natAbs + 1) n.natAbs)).map (fun k => -(k : Int))
          else (parseNat? ('-' :: natReprGo (n.natAbs + 1) n.natAbs)).map (fun k => (k : Int)))
        = some n
    rw [if_pos rfl, hp]
    show some (-(n.natAbs : Int)) = some n
    exact congrArg some (by omega)
  · rw [intRepr, if_neg hn]
    cases hl : natReprGo (n.natAbs + 1) n.natAbs with
    | nil => exact absurd hl hne
    | cons c cs =>
      have hc : ¬ c = '-' := by
        have hm := hdig c (by rw [hl]; exact List.mem_cons_self c cs)
        intro hcc
        subst hcc
        exact absurd hm (by decide)
      show (if c = '-' then (parseNat? cs).map (fun k => -(k : Int))
            else (parseNat? (c :: cs)).map (fun k => (k : Int))) = some n
      rw [if_neg hc, ← hl, hp]
      show some ((n.natAbs : Int)) = some n
      exact congrArg some (by omega)

/-- A `decodeId` round trip: the exact decimal string of an integer id
decodes back to that integer (on safe integers this is the program's
behavior; see the section comment). -/
theorem decodeId_intRepr (n : Int) : decodeId (intRepr n) = PId.num n := by
  unfold decodeId
  rw [strToInt?_intRepr]
  dsimp only
  rw [if_pos rfl]

/-- A fact about the model's decode: it returns a number exactly on exact
decimal integer strings.  The program's decode returns numbers on more
keys (every canonical double string, such as "7.5"), so only the
number-producing direction describes the program. -/
theorem decodeId_cases (s : String) :
    decodeId s = PId.str s ∨ ∃ n, intRepr n = s ∧ decodeId s = PId.num n := by
  unfold decodeId
  cases h : strToInt? s with
  | none => exact Or.inl rfl
  | some n =>
    by_cases he : intRepr n = s
    · refine Or.inr ⟨n, he, ?_⟩
      show (if intRepr n = s then PId.num n else PId.str s) = PId.num n
      rw [if_pos he]
    · refine Or.inl ?_
      show (if intRepr n = s then PId.num n else PId.str s) = PId.str s
      rw [if_neg he]

/-- The number of rows carrying key `s`. -/
def keyCount (l : List (String × α)) (s : String) : Nat :=
  l.countP (fun r => decide (r.1 = s))

theorem keyCount_append (l1 l2 : List (String × α)) (s : String) :
    keyCount (l1 ++ l2) s = keyCount l1 s + keyCount l2 s :=
  List.countP_append _ _ _

theorem keyCount_alErase_self (l : List (String × α)) (s : String) :
    keyCount (alErase l s) s = 0 := by
  unfold keyCount alErase
  rw [List.countP_filter, List.countP_eq_zero]
  intro a _
  simp

theorem keyCount_single_self (s : String) (v : α) : keyCount [(s, v)] s = 1 := by
  simp [keyCount]

/-- Within the exact-decimal fragment — string ids, and integer ids of
magnitude at most 2^53, where `RawId.toStr` is exactly JS `String(id)` —
upserting two points whose ids stringify equally leaves exactly one live
row in each table, keyed by that string and holding the second point's
vector and payload; and every safe-integer id's stored key decodes back to
that integer.  The full id-decode rule of the program (every canonical
double string parses back to a number) is IEEE-754 behavior outside this
embedding. -/
theorem sqlite_latest_wins_string_keying (st : SqlStore) (name : String)
    (id1 id2 : RawId) (v1 v2 : Option (List JsNum)) (pl1 pl2 : Option JVal)
    (st' : SqlStore) (coll' : SqlColl)
    (hsafe1 : ∀ n, id1 = RawId.num n → n.natAbs ≤ 2 ^ 53)
    (hsafe2 : ∀ n, id2 = RawId.num n → n.natAbs ≤ 2 ^ 53)
    (hid : id1.toStr = id2.toStr)
    (hok : SqlStore.upsertPoints st name [⟨id1, v1, pl1⟩, ⟨id2, v2, pl2⟩] = .ok st')
    (hcoll : alGet st'.collections name = some coll') :
    (keyCount coll'.vectors id2.toStr = 1 ∧
     alGet coll'.vectors id2.toStr = some ((v2.getD []).map JsNum.toQ) ∧
     keyCount coll'.payloads id2.toStr = 1 ∧
     alGet coll'.payloads id2.toStr = some pl2) ∧
    (∀ n : Int, n.natAbs ≤ 2 ^ 53 → decodeId (RawId.toStr (RawId.num n)) = PId.num n) := by
  refine ⟨?_, fun n _ => decodeId_intRepr n⟩
  unfold SqlStore.upsertPoints at hok
  cases halg : alGet st.collections name with
  | none => rw [halg] at hok; cases hok
  | some coll =>
    rw [halg] at hok
    dsimp only at hok
    cases hval : validatePoints coll.size [⟨id1, v1, pl1⟩, ⟨id2, v2, pl2⟩] with
    | some e => rw [hval] at hok; cases hok
    | none =>
      rw [hval] at hok
      injection hok with h2
      subst h2
      dsimp only at hcoll
      rw [alGet_alSet, if_pos rfl] at hcoll
      injection hcoll with h3
      subst h3
      refine ⟨?_, ?_, ?_, ?_⟩ <;>
        simp only [List.foldl_cons, List.foldl_nil, upsertRow]
      · rw [keyCount_append, keyCount_alErase_self, keyCount_single_self]
      · rw [alGet_append_single, alGet_alErase, if_pos rfl]
        simp
      · rw [keyCount_append, keyCount_alErase_self, keyCount_single_self]
      · rw [alGet_append_single, alGet_alErase, if_pos rfl]
        simp
